import Mathlib

/-!
Shallow embedding of the availability core of the freerooms-uf repository
(`backend/lib/availability.ts`) together with proofs about the claims of its
specification.

Modelling conventions:
* JavaScript objects used as string-keyed records (`Record<string, T>`, `Map`)
  are embedded as insertion-ordered association lists `List (String × T)`;
  `setKey` reproduces the JS update-in-place-or-append semantics of both
  `obj[k] = v` and `Map.set`.
* JS numbers occurring in the core are integral (minutes of day, indices);
  they are embedded as `Int`.  The latitude/longitude and capacity fields are
  opaque payload (the core never computes with them), embedded as `Int`.
* `Array.prototype.sort` is stable; it is embedded as `List.insertionSort`
  with the non-strict relation `cmp a b ≤ 0`, which is also stable.
* `localeCompare` is embedded as lexicographic string comparison.
* Optional (`undefined`) and nullable fields are embedded as `Option`;
  the field `nextAvailable?: NextAvailability | null` becomes
  `Option (Option NextAvailability)`.
-/

/-- JS `map.get k` / first-match association-list lookup. -/
def alookup {α : Type} : List (String × α) → String → Option α
  | [], _ => none
  | (k, v) :: rest, key => if k = key then some v else alookup rest key

/-- JS `obj[k] = v` / `Map.set k v`: update the existing key in place
(keeping its position) or append a new key at the end. -/
def setKey {α : Type} : List (String × α) → String → α → List (String × α)
  | [], key, v => [(key, v)]
  | (k, w) :: rest, key, v =>
    if k = key then (key, v) :: rest else (k, w) :: setKey rest key v

/-- JS `String.prototype.toUpperCase` (basic-latin model): upper-case every
character. -/
def jsToUpperCase (s : String) : String :=
  String.mk (s.data.map Char.toUpper)

/-- JS `String.prototype.padStart(targetLength, pad)` for a one-character pad. -/
def padStart (s : String) (targetLength : Nat) (pad : Char) : String :=
  if targetLength ≤ s.length then s
  else String.mk (List.replicate (targetLength - s.length) pad) ++ s

/-- Lexicographic comparison of character lists by code point
(JS string ordering). -/
def charListLt : List Char → List Char → Bool
  | [], [] => false
  | [], _ :: _ => true
  | _ :: _, [] => false
  | c :: cs, d :: ds =>
    if c.toNat < d.toNat then true
    else if d.toNat < c.toNat then false
    else charListLt cs ds

/-- JS `a < b` on strings. -/
def jsStrLt (a b : String) : Bool :=
  charListLt a.data b.data

/-- JS `a <= b` on strings (`a` does not sort strictly after `b`). -/
def jsStrLE (a b : String) : Prop :=
  jsStrLt b a = false

instance : DecidableRel jsStrLE := fun a b =>
  inferInstanceAs (Decidable (jsStrLt b a = false))

/-- Sign model of JS `String.prototype.localeCompare` (lexicographic). -/
def localeCompare (a b : String) : Int :=
  if jsStrLt a b then -1 else if jsStrLt b a then 1 else 0

/-- JS `Array.prototype.indexOf` (−1 when absent). -/
def jsIndexOf (l : List String) (x : String) : Int :=
  match l.findIdx? (fun y => y == x) with
  | some i => (i : Int)
  | none => -1

/-- Split a character list at every occurrence of `sep`
(JS `String.prototype.split` with a one-character separator). -/
def jsSplit (sep : Char) : List Char → List (List Char)
  | [] => [[]]
  | c :: rest =>
    match jsSplit sep rest with
    | [] => [[]]
    | cur :: more => if c = sep then [] :: cur :: more else (c :: cur) :: more

/-- JS `String.prototype.split(sep)` for a one-character separator. -/
def splitParts (s : String) (sep : Char) : List String :=
  (jsSplit sep s.data).map String.mk

/-- JS `Number(...)` on a plain decimal string (the only shapes the core
feeds it). -/
def stringToNat? (s : String) : Option Nat :=
  if s.data.isEmpty then none
  else if s.data.all Char.isDigit then
    some (s.data.foldl (fun n c => n * 10 + (c.toNat - 48)) 0)
  else none

/-- `toMinutes` from the source: parse `"HH:MM"` into minutes since midnight. -/
def toMinutes (hhmm : String) : Int :=
  let parts := splitParts hhmm ':'
  let hours := ((parts[0]?.bind stringToNat?).getD 0 : Int)
  let minutes := ((parts[1]?.bind stringToNat?).getD 0 : Int)
  hours * 60 + minutes

/-- `formatTime12` from the source: `"HH:MM"` to a 12-hour display string. -/
def formatTime12 (hourMinute : String) : String :=
  let parts := splitParts hourMinute ':'
  let hh := (parts[0]?.bind stringToNat?).getD 0
  let mm := (parts[1]?.bind stringToNat?).getD 0
  let period := if 12 ≤ hh then "PM" else "AM"
  let hour := ((hh + 11) % 12) + 1
  toString hour ++ ":" ++ padStart (toString mm) 2 '0' ++ " " ++ period

/-- One entry of `PERIOD_DEFINITIONS`; the source fields are `start`/`end`
(`end` is a Lean keyword, embedded as `stop`). -/
structure PeriodDef where
  start : String
  stop : String
deriving DecidableEq

def PERIOD_DEFINITIONS : List (String × PeriodDef) :=
  [ ("1", ⟨"07:25", "08:15"⟩),
    ("2", ⟨"08:30", "09:20"⟩),
    ("3", ⟨"09:35", "10:25"⟩),
    ("4", ⟨"10:40", "11:30"⟩),
    ("5", ⟨"11:45", "12:35"⟩),
    ("6", ⟨"12:50", "13:40"⟩),
    ("7", ⟨"13:55", "14:45"⟩),
    ("8", ⟨"15:00", "15:50"⟩),
    ("9", ⟨"16:05", "16:55"⟩),
    ("10", ⟨"17:10", "18:00"⟩),
    ("11", ⟨"18:15", "19:05"⟩),
    ("E1", ⟨"19:20", "20:10"⟩),
    ("E2", ⟨"20:20", "21:10"⟩),
    ("E3", ⟨"21:20", "22:10"⟩) ]

def PERIOD_START_TIMES_24 : List (String × String) :=
  PERIOD_DEFINITIONS.map (fun pd => (pd.1, pd.2.start))

def DAY_ORDER : List (String × Nat) :=
  [("M", 0), ("T", 1), ("W", 2), ("TH", 3), ("F", 4), ("S", 5), ("SU", 6)]

def DAY_SEQUENCE : List String := ["M", "T", "W", "TH", "F", "S", "SU"]

def DAY_LABELS : List (String × String) :=
  [ ("M", "Monday"), ("T", "Tuesday"), ("W", "Wednesday"), ("TH", "Thursday"),
    ("F", "Friday"), ("S", "Saturday"), ("SU", "Sunday") ]

/-- `DAY_ORDER[d] ?? 99` from the day-sorting comparator. -/
def dayOrderVal (d : String) : Nat :=
  (alookup DAY_ORDER d).getD 99

/-- The day-sorting comparator `(DAY_ORDER[a] ?? 99) - (DAY_ORDER[b] ?? 99)`. -/
def dayCompare (a b : String) : Int :=
  (dayOrderVal a : Int) - (dayOrderVal b : Int)

/-- The comparator of `sortPeriods` from the source. -/
def periodCompare (a b : String) : Int :=
  match alookup PERIOD_START_TIMES_24 a, alookup PERIOD_START_TIMES_24 b with
  | some aTime, some bTime => toMinutes aTime - toMinutes bTime
  | some _, none => -1
  | none, some _ => 1
  | none, none => localeCompare a b

/-- Non-strict relation induced by a JS comparator; a JS stable sort with
comparator `cmp` is `List.insertionSort` with this relation. -/
def jsLE (cmp : α → α → Int) (a b : α) : Prop := cmp a b ≤ 0

instance (cmp : α → α → Int) : DecidableRel (jsLE cmp) := fun a b =>
  inferInstanceAs (Decidable (cmp a b ≤ 0))

/-- `sortPeriods` from the source. -/
def sortPeriods (periods : List String) : List String :=
  List.insertionSort (jsLE periodCompare) periods

structure RawStarsEntry where
  ROOM : String
  DAY : String
  PERIOD : String
deriving DecidableEq

structure PeriodEntry where
  day : String
  period : String
  startTime : String
  endTime : String
  startMinutes : Int
  endMinutes : Int
deriving DecidableEq

structure NextAvailability where
  day : String
  dayLabel : String
  period : String
  startTime : String
  endTime : String
deriving DecidableEq

structure SizeAvailability where
  periods : List PeriodEntry
  isAvailableNow : Option Bool := none
  nextAvailable : Option (Option NextAvailability) := none
deriving DecidableEq

structure RawClassroomFeature where
  slug : String
  label : String
deriving DecidableEq

structure RoomMetadata where
  capacity : Option Int
  photo : Option String
  gallery : List String
  features : List RawClassroomFeature
  featureFlags : List (String × Bool)
  detailUrl : String
deriving DecidableEq

structure RoomAvailability where
  number : String
  metadata : Option RoomMetadata := none
  availability : List (String × SizeAvailability)
deriving DecidableEq

structure BuildingAvailability where
  id : String
  code : Option String
  name : String
  campusId : Option String
  lat : Option Int
  lng : Option Int
  rooms : List RoomAvailability
deriving DecidableEq

structure AvailabilityDataset where
  fetchedAt : String
  term : String
  classSizes : List String
  buildings : List BuildingAvailability
deriving DecidableEq

structure RawStarsBuilding where
  id : String
  name : String
  code : Option String := none
  campusId : Option String := none
  lat : Option Int := none
  lng : Option Int := none
  sizes : List (String × List RawStarsEntry)
deriving DecidableEq

structure RawStarsData where
  fetchedAt : String
  term : String
  classSizes : List String
  buildings : List RawStarsBuilding
deriving DecidableEq

structure RawClassroomRecord where
  buildingCode : String
  roomNumber : String
  name : String
  displayName : String
  capacity : Option Int
  photo : Option String
  gallery : List String
  features : List RawClassroomFeature
  featureFlags : List (String × Bool)
  detailUrl : String
deriving DecidableEq

structure RawClassroomDataset where
  fetchedAt : String
  source : String
  rooms : List RawClassroomRecord
deriving DecidableEq

structure TimeContext where
  dayCode : String
  minutes : Int
deriving DecidableEq

structure StatusResult where
  isAvailableNow : Bool
  nextAvailable : Option NextAvailability
deriving DecidableEq

/-- One step of the `byDay` accumulation in `normalizePeriodEntries`:
`byDay` is a `Map` from day code to an insertion-ordered `Set` of periods. -/
def addEntryToByDay (byDay : List (String × List String)) (day period : String) :
    List (String × List String) :=
  match alookup byDay day with
  | none => byDay ++ [(day, [period])]
  | some ps => setKey byDay day (if period ∈ ps then ps else ps ++ [period])

/-- The `PERIOD_DEFINITIONS[period] ?? { start: "00:00", end: "01:00" }` lookup. -/
def periodDefOf (period : String) : PeriodDef :=
  (alookup PERIOD_DEFINITIONS period).getD ⟨"00:00", "01:00"⟩

/-- Build the `PeriodEntry` pushed by `normalizePeriodEntries`. -/
def mkPeriodEntry (day period : String) : PeriodEntry :=
  let definition := periodDefOf period
  { day := day
    period := period
    startTime := formatTime12 definition.start
    endTime := formatTime12 definition.stop
    startMinutes := toMinutes definition.start
    endMinutes := toMinutes definition.stop }

/-- The `byDay` map accumulated by `normalizePeriodEntries`. -/
def byDayOf (entries : List RawStarsEntry) : List (String × List String) :=
  entries.foldl
    (fun m e => addEntryToByDay m (jsToUpperCase e.DAY) (jsToUpperCase e.PERIOD)) []

/-- `normalizePeriodEntries` from the source. -/
def normalizePeriodEntries (entries : List RawStarsEntry) : List PeriodEntry :=
  let byDay := byDayOf entries
  let days := List.insertionSort (jsLE dayCompare) (byDay.map Prod.fst)
  days.flatMap (fun day =>
    (sortPeriods ((alookup byDay day).getD [])).map (mkPeriodEntry day))

/-- The `NextAvailability` view of a found period entry
(`DAY_LABELS[day] ?? day`). -/
def toNextAvailability (p : PeriodEntry) : NextAvailability :=
  { day := p.day
    dayLabel := (alookup DAY_LABELS p.day).getD p.day
    period := p.period
    startTime := p.startTime
    endTime := p.endTime }

/-- The day-offset search loop of `computeStatus`.  The JS `%` on a possibly
negative index is truncated remainder (`Int.tmod`); `DAY_SEQUENCE[-1]` is
`undefined`, matched by no period's `day`. -/
def searchOffsets (periods : List PeriodEntry) (context : TimeContext)
    (startIndex : Int) : Option PeriodEntry :=
  (List.range 7).findSome? (fun offset =>
    let idx : Int := (startIndex + Int.ofNat offset).tmod 7
    let day : Option String :=
      if 0 ≤ idx then DAY_SEQUENCE[idx.toNat]? else none
    let dayPeriods := periods.filter (fun p =>
      match day with
      | some d => p.day == d
      | none => false)
    if offset == 0 then
      dayPeriods.find? (fun p => decide (context.minutes < p.startMinutes))
    else
      dayPeriods.head?)

/-- `computeStatus` from the source. -/
def computeStatus (periods : List PeriodEntry) (context : TimeContext) :
    StatusResult :=
  if periods.isEmpty then ⟨false, none⟩
  else
    ⟨periods.any (fun p =>
        p.day == context.dayCode &&
          decide (p.startMinutes ≤ context.minutes) &&
          decide (context.minutes < p.endMinutes)),
      (searchOffsets periods context (jsIndexOf DAY_SEQUENCE context.dayCode)).map
        toNextAvailability⟩

/-- `applyRealtimeStatus` from the source.  The current Eastern time context
is an explicit parameter: `getCurrentEasternContext()` is `none` exactly when
the time API fails to produce a weekday/hour/minute.  The defensive copy of
`periods` is the identity at the value level. -/
def applyRealtimeStatus (context : Option TimeContext)
    (dataset : AvailabilityDataset) : AvailabilityDataset :=
  match context with
  | none => dataset
  | some ctx =>
    { dataset with
      buildings := dataset.buildings.map (fun building =>
        { building with
          rooms := building.rooms.map (fun room =>
            { room with
              availability := room.availability.map (fun sr =>
                let status := computeStatus sr.2.periods ctx
                (sr.1,
                  { periods := sr.2.periods
                    isAvailableNow := some status.isAvailableNow
                    nextAvailable := some status.nextAvailable })) }) }) }

/-- The per-building accumulator of `buildAvailabilityDataset`
(`BuildingAvailability & { roomsMap: Map<string, RoomAvailability> }`;
the unused `rooms: []` field is dropped). -/
structure BuildingAcc where
  id : String
  code : Option String
  name : String
  campusId : Option String
  lat : Option Int
  lng : Option Int
  roomsMap : List (String × RoomAvailability)
deriving DecidableEq

/-- `building.code ? building.code.toUpperCase() : null`
(the empty string is falsy). -/
def normalizeBuildingCode (code : Option String) : Option String :=
  match code with
  | some c => if c.isEmpty then none else some (jsToUpperCase c)
  | none => none

/-- `${room.buildingCode.toUpperCase()}-${room.roomNumber.toUpperCase()}`. -/
def classroomKey (room : RawClassroomRecord) : String :=
  jsToUpperCase room.buildingCode ++ "-" ++ jsToUpperCase room.roomNumber

/-- The classroom-metadata lookup map built by `buildAvailabilityDataset`. -/
def classroomMapOf (classrooms : Option RawClassroomDataset) :
    List (String × RawClassroomRecord) :=
  (match classrooms with
   | some c => c.rooms
   | none => []).foldl (fun m room => setKey m (classroomKey room) room) []

/-- The `RoomMetadata` extracted from a matched `RawClassroomRecord`. -/
def metadataOf (meta : RawClassroomRecord) : RoomMetadata :=
  { capacity := meta.capacity
    photo := meta.photo
    gallery := meta.gallery
    features := meta.features
    featureFlags := meta.featureFlags
    detailUrl := meta.detailUrl }

/-- Group the raw entries of one size bucket by zero-padded room number
(`entry.ROOM.padStart(4, "0")`), insertion-ordered. -/
def groupByRoom (entries : List RawStarsEntry) : List (String × List RawStarsEntry) :=
  entries.foldl (fun acc entry =>
    let roomNumber := padStart entry.ROOM 4 '0'
    match alookup acc roomNumber with
    | some group => setKey acc roomNumber (group ++ [entry])
    | none => acc ++ [(roomNumber, [entry])]) []

/-- The `metaKey` of the per-room loop (`code && roomNumber` truthiness). -/
def metaKeyOf (code : Option String) (roomNumber : String) : Option String :=
  match code with
  | some c =>
    if c.isEmpty || roomNumber.isEmpty then none
    else some (c ++ "-" ++ roomNumber)
  | none => none

/-- The room record the per-room loop works on: the existing one, or a fresh
record enriched with metadata by key lookup. -/
def currentRoom (classroomMap : List (String × RawClassroomRecord))
    (code : Option String) (roomsMap : List (String × RoomAvailability))
    (roomNumber : String) : RoomAvailability :=
  match alookup roomsMap roomNumber with
  | some r => r
  | none =>
    { number := roomNumber
      metadata := ((metaKeyOf code roomNumber).bind (alookup classroomMap)).map metadataOf
      availability := [] }

/-- The body of the per-room loop of `buildAvailabilityDataset`: fetch or
create the room record (enriching with metadata at creation), normalize the
group's entries, and attach the size bucket when normalization is non-empty. -/
def processRoom (classroomMap : List (String × RawClassroomRecord))
    (code : Option String) (size : String)
    (roomsMap : List (String × RoomAvailability))
    (grp : String × List RawStarsEntry) : List (String × RoomAvailability) :=
  setKey roomsMap grp.1
    (if (normalizePeriodEntries grp.2).isEmpty then
      currentRoom classroomMap code roomsMap grp.1
     else
      { currentRoom classroomMap code roomsMap grp.1 with
        availability := setKey (currentRoom classroomMap code roomsMap grp.1).availability
          size ⟨normalizePeriodEntries grp.2, none, none⟩ })

/-- The body of the per-size loop of `buildAvailabilityDataset`. -/
def processSize (classroomMap : List (String × RawClassroomRecord))
    (code : Option String) (roomsMap : List (String × RoomAvailability))
    (sizeEntry : String × List RawStarsEntry) : List (String × RoomAvailability) :=
  (groupByRoom sizeEntry.2).foldl (processRoom classroomMap code sizeEntry.1) roomsMap

/-- The building record the per-building loop works on: the existing record
for this id, or a fresh record with this occurrence's scalar fields. -/
def currentBuildingAcc (buildingMap : List (String × BuildingAcc))
    (building : RawStarsBuilding) : BuildingAcc :=
  match alookup buildingMap building.id with
  | some r => r
  | none =>
    { id := building.id
      code := normalizeBuildingCode building.code
      name := building.name
      campusId := building.campusId
      lat := building.lat
      lng := building.lng
      roomsMap := [] }

/-- The body of the per-building loop of `buildAvailabilityDataset`. -/
def processBuilding (classroomMap : List (String × RawClassroomRecord))
    (buildingMap : List (String × BuildingAcc)) (building : RawStarsBuilding) :
    List (String × BuildingAcc) :=
  setKey buildingMap building.id
    { currentBuildingAcc buildingMap building with
      roomsMap := building.sizes.foldl
        (processSize classroomMap (currentBuildingAcc buildingMap building).code)
        (currentBuildingAcc buildingMap building).roomsMap }

/-- The room comparator `a.number.localeCompare(b.number)`. -/
def roomCompare (a b : RoomAvailability) : Int :=
  localeCompare a.number b.number

/-- The building comparator of `buildAvailabilityDataset` (an empty or null
code is falsy). -/
def buildingCompare (a b : BuildingAvailability) : Int :=
  match a.code, b.code with
  | some ac, some bc =>
    if ac.isEmpty then
      (if bc.isEmpty then localeCompare a.name b.name else 1)
    else if bc.isEmpty then -1
    else localeCompare ac bc
  | some ac, none => if ac.isEmpty then localeCompare a.name b.name else -1
  | none, some bc => if bc.isEmpty then localeCompare a.name b.name else 1
  | none, none => localeCompare a.name b.name

/-- Turn a `BuildingAcc` into the output `BuildingAvailability`
(rooms sorted by room number). -/
def finalizeBuilding (b : BuildingAcc) : BuildingAvailability :=
  { id := b.id
    code := b.code
    name := b.name
    campusId := b.campusId
    lat := b.lat
    lng := b.lng
    rooms := List.insertionSort (jsLE roomCompare) (b.roomsMap.map Prod.snd) }

/-- `buildAvailabilityDataset` from the source.  `nowIso` stands for
`new Date().toISOString()`, used only in the missing-snapshot branch. -/
def buildAvailabilityDataset (stars : Option RawStarsData)
    (classrooms : Option RawClassroomDataset) (nowIso : String) :
    AvailabilityDataset :=
  match stars with
  | none => ⟨nowIso, "", [], []⟩
  | some stars =>
    let classroomMap := classroomMapOf classrooms
    let buildingMap := stars.buildings.foldl (processBuilding classroomMap) []
    let buildings := (buildingMap.map Prod.snd).map finalizeBuilding
    let sorted := List.insertionSort (jsLE buildingCompare) buildings
    ⟨stars.fetchedAt, stars.term, stars.classSizes, sorted⟩

/-- A loose (persisted/cached JSON) value standing where `mapToPeriodEntry`
expects `raw: any`: the fields it reads, each possibly absent. -/
structure RawPeriodLike where
  day : Option String := none
  DAY : Option String := none
  period : Option String := none
  PERIOD : Option String := none
  startTime : Option String := none
  endTime : Option String := none
  startMinutes : Option Int := none
  endMinutes : Option Int := none
deriving DecidableEq

/-- A loose size record of a persisted dataset, as dispatched by
`normalizeAvailabilityDataset`: a bare array of period-like values, an object
with a `periods` array, or anything else. -/
inductive LooseSize where
  | arr (entries : List RawPeriodLike)
  | obj (periods : List RawPeriodLike)
  | other
deriving DecidableEq

structure LooseRoom where
  number : String
  metadata : Option RoomMetadata := none
  availability : List (String × LooseSize)
deriving DecidableEq

structure LooseBuilding where
  id : String
  code : Option String
  name : String
  campusId : Option String
  lat : Option Int
  lng : Option Int
  rooms : List LooseRoom
deriving DecidableEq

structure LooseDataset where
  fetchedAt : String
  term : String
  classSizes : List String
  buildings : List LooseBuilding
deriving DecidableEq

/-- `mapToPeriodEntry` from the source. -/
def mapToPeriodEntry (raw : RawPeriodLike) : PeriodEntry :=
  let day := jsToUpperCase ((raw.day.or raw.DAY).getD "")
  let period := jsToUpperCase ((raw.period.or raw.PERIOD).getD "")
  let definition := periodDefOf period
  let startMinutes := raw.startMinutes.getD (toMinutes definition.start)
  let endMinutes := raw.endMinutes.getD (toMinutes definition.stop)
  { day := day
    period := period
    startTime := raw.startTime.getD (formatTime12 definition.start)
    endTime := raw.endTime.getD (formatTime12 definition.stop)
    startMinutes := startMinutes
    endMinutes := endMinutes }

/-- The canonical record `normalizeAvailabilityDataset` makes of one loose
size record. -/
def normalizeSizeRecord (record : LooseSize) : SizeAvailability :=
  match record with
  | .arr entries => ⟨entries.map mapToPeriodEntry, none, none⟩
  | .obj periods => ⟨periods.map mapToPeriodEntry, none, none⟩
  | .other => ⟨[], none, none⟩

/-- `normalizeAvailabilityDataset` from the source, on loose persisted data
(its output is always well-shaped). -/
def normalizeAvailabilityDataset (dataset : LooseDataset) : AvailabilityDataset :=
  { fetchedAt := dataset.fetchedAt
    term := dataset.term
    classSizes := dataset.classSizes
    buildings := dataset.buildings.map (fun building =>
      { id := building.id
        code := building.code
        name := building.name
        campusId := building.campusId
        lat := building.lat
        lng := building.lng
        rooms := building.rooms.map (fun room =>
          { number := room.number
            metadata := room.metadata
            availability := room.availability.foldl
              (fun acc sr => setKey acc sr.1 (normalizeSizeRecord sr.2)) [] }) }) }

/-- View a well-typed `PeriodEntry` as the loose JSON value it serializes to. -/
def looseOfPeriodEntry (p : PeriodEntry) : RawPeriodLike :=
  { day := some p.day
    period := some p.period
    startTime := some p.startTime
    endTime := some p.endTime
    startMinutes := some p.startMinutes
    endMinutes := some p.endMinutes }

/-- View a well-typed dataset as the loose shape consumed by
`normalizeAvailabilityDataset` (each size record is an object with a
`periods` array). -/
def looseOfDataset (d : AvailabilityDataset) : LooseDataset :=
  { fetchedAt := d.fetchedAt
    term := d.term
    classSizes := d.classSizes
    buildings := d.buildings.map (fun building =>
      { id := building.id
        code := building.code
        name := building.name
        campusId := building.campusId
        lat := building.lat
        lng := building.lng
        rooms := building.rooms.map (fun room =>
          { number := room.number
            metadata := room.metadata
            availability := room.availability.map (fun sr =>
              (sr.1, LooseSize.obj (sr.2.periods.map looseOfPeriodEntry))) }) }) }

/-! ## Association-list and fold infrastructure -/

theorem alookup_mem {α : Type} {m : List (String × α)} {k : String} {v : α}
    (h : alookup m k = some v) : (k, v) ∈ m := by
  induction m with
  | nil => simp [alookup] at h
  | cons hd tl ih =>
    obtain ⟨k', v'⟩ := hd
    by_cases hk : k' = k
    · subst hk
      simp [alookup] at h
      simp [h]
    · simp [alookup, hk] at h
      exact List.mem_cons_of_mem _ (ih h)

theorem alookup_eq_none {α : Type} {m : List (String × α)} {k : String} :
    alookup m k = none ↔ k ∉ m.map Prod.fst := by
  induction m with
  | nil => simp [alookup]
  | cons hd tl ih =>
    obtain ⟨k', v'⟩ := hd
    by_cases hk : k' = k
    · subst hk; simp [alookup]
    · simp [alookup, hk, ih, Ne.symm hk]

theorem alookup_isSome_of_mem_keys {α : Type} {m : List (String × α)} {k : String}
    (h : k ∈ m.map Prod.fst) : ∃ v, alookup m k = some v := by
  cases hv : alookup m k with
  | none => exact absurd (alookup_eq_none.mp hv) (not_not_intro h)
  | some v => exact ⟨v, rfl⟩

theorem mem_setKey {α : Type} {m : List (String × α)} {k : String} {v : α} {x : String × α}
    (h : x ∈ setKey m k v) : x = (k, v) ∨ x ∈ m := by
  induction m with
  | nil => simp [setKey] at h; simp [h]
  | cons hd tl ih =>
    obtain ⟨k', v'⟩ := hd
    by_cases hk : k' = k
    · subst hk
      simp [setKey] at h
      rcases h with h | h
      · exact Or.inl h
      · exact Or.inr (List.mem_cons_of_mem _ h)
    · simp [setKey, hk] at h
      rcases h with h | h
      · exact Or.inr (by simp [h])
      · rcases ih h with h' | h'
        · exact Or.inl h'
        · exact Or.inr (List.mem_cons_of_mem _ h')

theorem setKey_ne_nil {α : Type} (m : List (String × α)) (k : String) (v : α) :
    setKey m k v ≠ [] := by
  cases m with
  | nil => simp [setKey]
  | cons hd tl =>
    obtain ⟨k', v'⟩ := hd
    by_cases hk : k' = k <;> simp [setKey, hk]

theorem setKey_keys {α : Type} (m : List (String × α)) (k : String) (v : α) :
    (setKey m k v).map Prod.fst =
      if k ∈ m.map Prod.fst then m.map Prod.fst else m.map Prod.fst ++ [k] := by
  induction m with
  | nil => simp [setKey]
  | cons hd tl ih =>
    obtain ⟨k', v'⟩ := hd
    by_cases hk : k' = k
    · subst hk; simp [setKey]
    · simp only [setKey, if_neg hk, List.map_cons, ih]
      by_cases hmem : k ∈ tl.map Prod.fst
      · simp [hmem, Ne.symm hk]
      · simp [hmem, Ne.symm hk]

theorem setKey_keys_nodup {α : Type} {m : List (String × α)} (k : String) (v : α)
    (h : (m.map Prod.fst).Nodup) : ((setKey m k v).map Prod.fst).Nodup := by
  rw [setKey_keys]
  by_cases hmem : k ∈ m.map Prod.fst
  · simpa [hmem]
  · simp only [hmem, if_false]
    refine List.Nodup.append h (List.nodup_singleton k) ?_
    intro a ha hb
    simp only [List.mem_singleton] at hb
    subst hb
    exact hmem ha

theorem setKey_of_not_mem {α : Type} {m : List (String × α)} {k : String} (v : α)
    (h : k ∉ m.map Prod.fst) : setKey m k v = m ++ [(k, v)] := by
  induction m with
  | nil => simp [setKey]
  | cons hd tl ih =>
    obtain ⟨k', v'⟩ := hd
    simp only [List.map_cons, List.mem_cons] at h
    push_neg at h
    simp [setKey, Ne.symm h.1, ih h.2]

theorem alookup_setKey_self {α : Type} (m : List (String × α)) (k : String) (v : α) :
    alookup (setKey m k v) k = some v := by
  induction m with
  | nil => simp [setKey, alookup]
  | cons hd tl ih =>
    obtain ⟨k', v'⟩ := hd
    by_cases hk : k' = k
    · subst hk; simp [setKey, alookup]
    · simp [setKey, alookup, hk, ih]

theorem alookup_setKey_ne {α : Type} (m : List (String × α)) {k k' : String} (v : α)
    (h : k' ≠ k) : alookup (setKey m k v) k' = alookup m k' := by
  induction m with
  | nil => simp [setKey, alookup, Ne.symm h]
  | cons hd tl ih =>
    obtain ⟨k₀, v₀⟩ := hd
    by_cases hk : k₀ = k
    · subst hk; simp [setKey, alookup, Ne.symm h, h]
    · by_cases hk' : k₀ = k'
      · subst hk'; simp [setKey, alookup, hk]
      · simp [setKey, alookup, hk, hk', ih]

/-- Invariant preservation along `List.foldl`, with membership of the folded
element available to the step. -/
theorem foldl_preserve {α β : Type} (P : β → Prop) {f : β → α → β} {l : List α}
    (step : ∀ b a, a ∈ l → P b → P (f b a)) :
    ∀ {b0 : β}, P b0 → P (l.foldl f b0) := by
  induction l with
  | nil => intro b0 h; simpa using h
  | cons hd tl ih =>
    intro b0 h
    simp only [List.foldl_cons]
    exact ih (fun b a ha hb => step b a (List.mem_cons_of_mem _ ha) hb)
      (step b0 hd (List.mem_cons_self _ _) h)

/-- Folding `setKey` over entries with fresh, mutually distinct keys is a map. -/
theorem foldl_setKey_map {α β : Type} (f : String × α → β) (l : List (String × α)) :
    ∀ (acc : List (String × β)), (l.map Prod.fst).Nodup →
      (∀ k ∈ l.map Prod.fst, k ∉ acc.map Prod.fst) → (acc.map Prod.fst).Nodup →
      l.foldl (fun a sr => setKey a sr.1 (f sr)) acc =
        acc ++ l.map (fun sr => (sr.1, f sr)) := by
  induction l with
  | nil => intro acc _ _ _; simp
  | cons hd tl ih =>
    intro acc hnd hdisj hacc
    simp only [List.map_cons, List.nodup_cons] at hnd
    have hfresh : hd.1 ∉ acc.map Prod.fst :=
      hdisj hd.1 (by simp)
    simp only [List.foldl_cons, setKey_of_not_mem _ hfresh]
    rw [ih (acc ++ [(hd.1, f hd)]) hnd.2 ?_ ?_]
    · simp
    · intro k hk
      simp only [List.map_append, List.mem_append, List.map_cons, List.map_nil,
        List.mem_singleton, not_or]
      refine ⟨hdisj k (by simp [hk]), ?_⟩
      intro hkk
      subst hkk
      exact hnd.1 hk
    · simp only [List.map_append]
      refine List.Nodup.append hacc (by simp) ?_
      intro a ha hb
      simp only [List.map_cons, List.map_nil, List.mem_singleton] at hb
      subst hb
      exact hfresh ha

theorem find?_filter {α : Type} (l : List α) (p q : α → Bool) :
    (l.filter p).find? q = l.find? (fun a => p a && q a) := by
  induction l with
  | nil => simp
  | cons hd tl ih =>
    by_cases hp : p hd <;> by_cases hq : q hd <;>
      simp [List.filter_cons, List.find?, hp, hq, ih]

theorem head?_filter {α : Type} (l : List α) (p : α → Bool) :
    (l.filter p).head? = l.find? p := by
  induction l with
  | nil => simp
  | cons hd tl ih =>
    by_cases hp : p hd <;> simp [List.filter_cons, List.find?, hp, ih]

/-! ## Upper-casing is idempotent -/

theorem char_toNat_ofNat {n : Nat} (h : n.isValidChar) : (Char.ofNat n).toNat = n := by
  simp only [Char.ofNat, h, dite_true, Char.ofNatAux, Char.toNat, UInt32.toNat]
  simp

theorem charToUpper_def (c : Char) :
    c.toUpper = if c.toNat ≥ 97 ∧ c.toNat ≤ 122 then Char.ofNat (c.toNat - 32) else c :=
  rfl

theorem charToUpper_idem (c : Char) : c.toUpper.toUpper = c.toUpper := by
  rw [charToUpper_def c]
  by_cases h : c.toNat ≥ 97 ∧ c.toNat ≤ 122
  · have hval : (c.toNat - 32).isValidChar := Or.inl (by omega)
    have htn : (Char.ofNat (c.toNat - 32)).toNat = c.toNat - 32 := char_toNat_ofNat hval
    have h2 : ¬((Char.ofNat (c.toNat - 32)).toNat ≥ 97 ∧
        (Char.ofNat (c.toNat - 32)).toNat ≤ 122) := by
      rw [htn]; omega
    rw [if_pos h, charToUpper_def, if_neg h2]
  · rw [if_neg h, charToUpper_def, if_neg h]

theorem jsToUpperCase_idem (s : String) :
    jsToUpperCase (jsToUpperCase s) = jsToUpperCase s := by
  simp [jsToUpperCase, List.map_map, Function.comp_def, charToUpper_idem]

/-! ## Comparator order facts -/

theorem charListLt_irrefl : ∀ l : List Char, charListLt l l = false
  | [] => rfl
  | c :: cs => by simp [charListLt, charListLt_irrefl cs]

theorem charListLt_trans : ∀ {x y z : List Char},
    charListLt x y = true → charListLt y z = true → charListLt x z = true
  | [], [], _, hxy, _ => by simp [charListLt] at hxy
  | _ :: _, [], _, hxy, _ => by simp [charListLt] at hxy
  | _, _ :: _, [], _, hyz => by simp [charListLt] at hyz
  | [], _ :: _, _ :: _, _, _ => rfl
  | c :: cs, d :: ds, e :: es, hxy, hyz => by
    by_cases h1 : c.toNat < d.toNat
    · by_cases h2 : d.toNat < e.toNat
      · simp [charListLt, show c.toNat < e.toNat by omega]
      · by_cases h3 : e.toNat < d.toNat
        · simp [charListLt, h2, h3] at hyz
        · simp [charListLt, show c.toNat < e.toNat by omega]
    · by_cases h4 : d.toNat < c.toNat
      · simp [charListLt, h1, h4] at hxy
      · simp only [charListLt, if_neg h1, if_neg h4] at hxy
        by_cases h2 : d.toNat < e.toNat
        · simp [charListLt, show c.toNat < e.toNat by omega]
        · by_cases h3 : e.toNat < d.toNat
          · simp [charListLt, h2, h3] at hyz
          · simp only [charListLt, if_neg h2, if_neg h3] at hyz
            simp only [charListLt, if_neg (show ¬(c.toNat < e.toNat) by omega),
              if_neg (show ¬(e.toNat < c.toNat) by omega)]
            exact charListLt_trans hxy hyz

theorem charListLt_asymm {x y : List Char} (h : charListLt x y = true) :
    charListLt y x = false := by
  cases hyx : charListLt y x with
  | false => rfl
  | true => exact absurd (charListLt_trans h hyx) (by simp [charListLt_irrefl])

theorem charListLt_eq_of_not : ∀ {x y : List Char},
    charListLt x y = false → charListLt y x = false → x = y
  | [], [], _, _ => rfl
  | [], _ :: _, hxy, _ => by simp [charListLt] at hxy
  | _ :: _, [], _, hyx => by simp [charListLt] at hyx
  | c :: cs, d :: ds, hxy, hyx => by
    simp only [charListLt] at hxy hyx
    by_cases h1 : c.toNat < d.toNat
    · simp [h1] at hxy
    · by_cases h2 : d.toNat < c.toNat
      · simp [h1, h2] at hyx
      · simp only [h1, h2, if_neg, if_false] at hxy hyx
        have hcd : c.toNat = d.toNat := by omega
        have : c = d := by
          have hc := Char.ofNat_toNat c
          have hd := Char.ofNat_toNat d
          rw [← hc, ← hd, hcd]
        rw [this, charListLt_eq_of_not hxy hyx]

theorem string_data_inj {a b : String} (h : a.data = b.data) : a = b := by
  cases a
  cases b
  simp only at h
  rw [h]

theorem jsStrLE_total (a b : String) : jsStrLE a b ∨ jsStrLE b a := by
  unfold jsStrLE jsStrLt
  cases h : charListLt b.data a.data with
  | false => exact Or.inl rfl
  | true => exact Or.inr (charListLt_asymm h)

theorem charListLt_connex (x y : List Char) :
    charListLt x y = true ∨ charListLt y x = true ∨ x = y := by
  cases h1 : charListLt x y with
  | true => exact Or.inl rfl
  | false =>
    cases h2 : charListLt y x with
    | true => exact Or.inr (Or.inl rfl)
    | false => exact Or.inr (Or.inr (charListLt_eq_of_not h1 h2))

theorem jsStrLE_trans {a b c : String} (hab : jsStrLE a b) (hbc : jsStrLE b c) :
    jsStrLE a c := by
  unfold jsStrLE jsStrLt at hab hbc ⊢
  cases hca : charListLt c.data a.data with
  | false => rfl
  | true =>
    rcases charListLt_connex b.data c.data with h | h | h
    · exact absurd (charListLt_trans h hca) (by simp [hab])
    · exact absurd h (by simp [hbc])
    · rw [h] at hab
      exact absurd hca (by simp [hab])

theorem jsStrLE_antisymm {a b : String} (hab : jsStrLE a b) (hba : jsStrLE b a) :
    a = b := by
  unfold jsStrLE jsStrLt at hab hba
  exact string_data_inj (charListLt_eq_of_not hba hab)

theorem localeCompare_le_iff (a b : String) : localeCompare a b ≤ 0 ↔ jsStrLE a b := by
  unfold localeCompare jsStrLE
  cases hab : jsStrLt a b with
  | true =>
    simp only [if_pos, if_true]
    constructor
    · intro _
      exact charListLt_asymm hab
    · intro _
      norm_num
  | false =>
    simp only [Bool.false_eq_true, if_false]
    cases hba : jsStrLt b a with
    | true => simp
    | false => simp

theorem dayCompare_le_iff (a b : String) :
    jsLE dayCompare a b ↔ dayOrderVal a ≤ dayOrderVal b := by
  unfold jsLE dayCompare
  omega

instance : IsTotal String (jsLE dayCompare) :=
  ⟨fun a b => by rw [dayCompare_le_iff, dayCompare_le_iff]; omega⟩

instance : IsTrans String (jsLE dayCompare) :=
  ⟨fun a b c hab hbc => by
    rw [dayCompare_le_iff] at hab hbc ⊢
    omega⟩

instance : IsTotal String (jsLE periodCompare) := by
  constructor
  intro a b
  unfold jsLE periodCompare
  cases ha : alookup PERIOD_START_TIMES_24 a <;>
    cases hb : alookup PERIOD_START_TIMES_24 b <;> simp only [ha, hb]
  · rcases jsStrLE_total a b with h | h
    · exact Or.inl ((localeCompare_le_iff a b).mpr h)
    · exact Or.inr ((localeCompare_le_iff b a).mpr h)
  · exact Or.inr (by norm_num)
  · exact Or.inl (by norm_num)
  · omega

instance : IsTrans String (jsLE periodCompare) := by
  constructor
  intro a b c hab hbc
  unfold jsLE periodCompare at hab hbc ⊢
  rcases ha : alookup PERIOD_START_TIMES_24 a with _ | x <;>
    rcases hb : alookup PERIOD_START_TIMES_24 b with _ | y <;>
    rcases hc : alookup PERIOD_START_TIMES_24 c with _ | z <;>
    simp only [ha, hb, hc] at hab hbc ⊢
  · exact (localeCompare_le_iff a c).mpr
      (jsStrLE_trans ((localeCompare_le_iff a b).mp hab) ((localeCompare_le_iff b c).mp hbc))
  · exact absurd hbc (by norm_num)
  · exact absurd hab (by norm_num)
  · exact absurd hab (by norm_num)
  · norm_num
  · exact absurd hbc (by norm_num)
  · norm_num
  · omega

def roomCompareKey (r : RoomAvailability) : String := r.number

theorem roomCompare_le_iff (a b : RoomAvailability) :
    jsLE roomCompare a b ↔ jsStrLE a.number b.number := by
  unfold jsLE roomCompare
  exact localeCompare_le_iff _ _

instance : IsTotal RoomAvailability (jsLE roomCompare) :=
  ⟨fun a b => by
    rw [roomCompare_le_iff, roomCompare_le_iff]
    exact jsStrLE_total _ _⟩

instance : IsTrans RoomAvailability (jsLE roomCompare) :=
  ⟨fun a b c hab hbc => by
    rw [roomCompare_le_iff] at hab hbc ⊢
    exact jsStrLE_trans hab hbc⟩

/-- The truthy code of a building (`null` and the empty string are falsy). -/
def buildingSortKey (b : BuildingAvailability) : Option String :=
  match b.code with
  | some c => if c.isEmpty then none else some c
  | none => none

theorem buildingCompare_eq (a b : BuildingAvailability) :
    buildingCompare a b =
      match buildingSortKey a, buildingSortKey b with
      | some x, some y => localeCompare x y
      | some _, none => -1
      | none, some _ => 1
      | none, none => localeCompare a.name b.name := by
  unfold buildingCompare buildingSortKey
  cases ha : a.code <;> cases hb : b.code
  · rfl
  · rename_i bc
    by_cases h : bc.isEmpty <;> simp [h]
  · rename_i ac
    by_cases h : ac.isEmpty <;> simp [h]
  · rename_i ac bc
    by_cases h1 : ac.isEmpty <;> by_cases h2 : bc.isEmpty <;> simp [h1, h2]

instance : IsTotal BuildingAvailability (jsLE buildingCompare) := by
  constructor
  intro a b
  unfold jsLE
  rw [buildingCompare_eq, buildingCompare_eq]
  cases buildingSortKey a <;> cases buildingSortKey b <;> simp only
  · rcases jsStrLE_total a.name b.name with h | h
    · exact Or.inl ((localeCompare_le_iff _ _).mpr h)
    · exact Or.inr ((localeCompare_le_iff _ _).mpr h)
  · exact Or.inr (by norm_num)
  · exact Or.inl (by norm_num)
  · rename_i x y
    rcases jsStrLE_total x y with h | h
    · exact Or.inl ((localeCompare_le_iff _ _).mpr h)
    · exact Or.inr ((localeCompare_le_iff _ _).mpr h)

instance : IsTrans BuildingAvailability (jsLE buildingCompare) := by
  constructor
  intro a b c hab hbc
  unfold jsLE at hab hbc ⊢
  rw [buildingCompare_eq] at hab hbc ⊢
  rcases hka : buildingSortKey a with _ | x <;>
    rcases hkb : buildingSortKey b with _ | y <;>
    rcases hkc : buildingSortKey c with _ | z <;>
    simp only [hka, hkb, hkc] at hab hbc ⊢
  · exact (localeCompare_le_iff _ _).mpr
      (jsStrLE_trans ((localeCompare_le_iff _ _).mp hab) ((localeCompare_le_iff _ _).mp hbc))
  · exact absurd hbc (by norm_num)
  · exact absurd hab (by norm_num)
  · exact absurd hab (by norm_num)
  · norm_num
  · exact absurd hbc (by norm_num)
  · norm_num
  · exact (localeCompare_le_iff _ _).mpr
      (jsStrLE_trans ((localeCompare_le_iff _ _).mp hab) ((localeCompare_le_iff _ _).mp hbc))

/-! ## Facts about the entry normalizer -/

theorem alookup_append_of_none {α : Type} {m : List (String × α)} {d : String}
    (h : alookup m d = none) (l : List (String × α)) :
    alookup (m ++ l) d = alookup l d := by
  induction m with
  | nil => simp
  | cons hd tl ih =>
    obtain ⟨k, v⟩ := hd
    by_cases hk : k = d
    · subst hk; simp [alookup] at h
    · simp only [alookup, hk, if_neg hk, List.cons_append] at h ⊢
      exact ih h

theorem alookup_append_of_some {α : Type} {m : List (String × α)} {d : String} {v : α}
    (h : alookup m d = some v) (l : List (String × α)) :
    alookup (m ++ l) d = some v := by
  induction m with
  | nil => simp [alookup] at h
  | cons hd tl ih =>
    obtain ⟨k, w⟩ := hd
    by_cases hk : k = d
    · subst hk; simp [alookup] at h ⊢; exact h
    · simp only [alookup, if_neg hk, List.cons_append] at h ⊢
      exact ih h

theorem setKey_self_of_alookup {α : Type} {m : List (String × α)} {k : String} {v : α}
    (h : alookup m k = some v) : setKey m k v = m := by
  induction m with
  | nil => simp [alookup] at h
  | cons hd tl ih =>
    obtain ⟨k', v'⟩ := hd
    by_cases hk : k' = k
    · subst hk
      simp [alookup] at h
      simp [setKey, h]
    · simp only [alookup, if_neg hk] at h
      simp [setKey, hk, ih h]

/-- Well-formedness of the `byDay` map: distinct day keys, non-empty distinct
period sets, and every stored string fixed by upper-casing. -/
def WellFormedByDay (m : List (String × List String)) : Prop :=
  (m.map Prod.fst).Nodup ∧
  ∀ dp ∈ m, dp.2 ≠ [] ∧ dp.2.Nodup ∧ jsToUpperCase dp.1 = dp.1 ∧
    ∀ q ∈ dp.2, jsToUpperCase q = q

/-- Pair membership in the `byDay` map. -/
def memPair (m : List (String × List String)) (d q : String) : Prop :=
  ∃ ps, alookup m d = some ps ∧ q ∈ ps

theorem addEntryToByDay_wf {m : List (String × List String)} {day period : String}
    (hm : WellFormedByDay m) (hday : jsToUpperCase day = day)
    (hperiod : jsToUpperCase period = period) :
    WellFormedByDay (addEntryToByDay m day period) := by
  obtain ⟨hnd, hwf⟩ := hm
  unfold addEntryToByDay
  cases hfind : alookup m day with
  | none =>
    refine ⟨?_, ?_⟩
    · have : day ∉ m.map Prod.fst := alookup_eq_none.mp hfind
      simp only [List.map_append, List.map_cons, List.map_nil]
      refine List.Nodup.append hnd (by simp) ?_
      intro a ha hb
      simp only [List.mem_singleton] at hb
      subst hb
      exact this ha
    · intro dp hdp
      rcases List.mem_append.mp hdp with h | h
      · exact hwf dp h
      · simp only [List.mem_singleton] at h
        subst h
        exact ⟨by simp, by simp, hday, by simpa using hperiod⟩
  | some ps =>
    by_cases hmem : period ∈ ps
    · simp only [hmem, if_pos]
      rw [setKey_self_of_alookup hfind]
      exact ⟨hnd, hwf⟩
    · simp only [hmem, if_neg, if_false]
      obtain ⟨hps_ne, hps_nd, hupd, hupq⟩ := hwf (day, ps) (alookup_mem hfind)
      refine ⟨setKey_keys_nodup _ _ hnd, ?_⟩
      · intro dp hdp
        rcases mem_setKey hdp with h | h
        · subst h
          refine ⟨by simp, ?_, hday, ?_⟩
          · simpa [List.nodup_append] using ⟨hps_nd, hmem⟩
          · intro q hq
            rcases List.mem_append.mp hq with h | h
            · exact hupq q h
            · simp only [List.mem_singleton] at h
              subst h
              exact hperiod
        · exact hwf dp h

theorem addEntryToByDay_memPair {m : List (String × List String)} {day period : String}
    (d q : String) :
    memPair (addEntryToByDay m day period) d q ↔
      memPair m d q ∨ (d = day ∧ q = period) := by
  unfold addEntryToByDay memPair
  cases hfind : alookup m day with
  | none =>
    by_cases hd : d = day
    · subst hd
      rw [alookup_append_of_none hfind]
      simp [alookup, hfind]
    · have : alookup (m ++ [(day, [period])]) d = alookup m d := by
        cases hmd : alookup m d with
        | none =>
          rw [alookup_append_of_none hmd]
          simp [alookup, Ne.symm hd]
        | some ps => exact alookup_append_of_some hmd _
      rw [this]
      simp [hd]
  | some ps =>
    by_cases hmem : period ∈ ps
    · simp only [hmem, if_pos]
      rw [setKey_self_of_alookup hfind]
      constructor
      · exact Or.inl
      · rintro (h | ⟨rfl, rfl⟩)
        · exact h
        · exact ⟨ps, hfind, hmem⟩
    · simp only [hmem, if_neg, if_false]
      by_cases hd : d = day
      · subst hd
        rw [alookup_setKey_self]
        constructor
        · rintro ⟨ps', hps', hq⟩
          obtain rfl : ps ++ [period] = ps' := by simpa using hps'
          rcases List.mem_append.mp hq with h | h
          · exact Or.inl ⟨ps, hfind, h⟩
          · simp only [List.mem_singleton] at h
            exact Or.inr ⟨rfl, h⟩
        · rintro (⟨ps', hps', hq⟩ | ⟨h1, h2⟩)
          · obtain rfl : ps = ps' := by rw [hfind] at hps'; exact (Option.some_inj.mp hps')
            exact ⟨ps ++ [period], rfl, List.mem_append.mpr (Or.inl hq)⟩
          · exact ⟨ps ++ [period], rfl, by simp [h2]⟩
      · rw [alookup_setKey_ne _ _ hd]
        simp [hd]

theorem byDay_fold_spec :
    ∀ (es : List RawStarsEntry) (m : List (String × List String)),
      WellFormedByDay m →
      WellFormedByDay (es.foldl
        (fun m e => addEntryToByDay m (jsToUpperCase e.DAY) (jsToUpperCase e.PERIOD)) m) ∧
      (∀ d q, memPair (es.foldl
          (fun m e => addEntryToByDay m (jsToUpperCase e.DAY) (jsToUpperCase e.PERIOD)) m) d q ↔
        (memPair m d q ∨ ∃ e ∈ es, jsToUpperCase e.DAY = d ∧ jsToUpperCase e.PERIOD = q)) := by
  intro es
  induction es with
  | nil =>
    intro m hm
    simpa using hm
  | cons e rest ih =>
    intro m hm
    simp only [List.foldl_cons]
    have hstep := addEntryToByDay_wf hm (jsToUpperCase_idem e.DAY) (jsToUpperCase_idem e.PERIOD)
    obtain ⟨hwf, hiff⟩ := ih _ hstep
    refine ⟨hwf, ?_⟩
    intro d q
    rw [hiff d q, addEntryToByDay_memPair d q]
    constructor
    · rintro ((h | ⟨rfl, rfl⟩) | ⟨e', he', h1, h2⟩)
      · exact Or.inl h
      · exact Or.inr ⟨e, by simp, rfl, rfl⟩
      · exact Or.inr ⟨e', by simp [he'], h1, h2⟩
    · rintro (h | ⟨e', he', h1, h2⟩)
      · exact Or.inl (Or.inl h)
      · rcases List.mem_cons.mp he' with rfl | he''
        · exact Or.inl (Or.inr ⟨h1.symm, h2.symm⟩)
        · exact Or.inr ⟨e', he'', h1, h2⟩

theorem byDayOf_wf (es : List RawStarsEntry) : WellFormedByDay (byDayOf es) :=
  (byDay_fold_spec es [] ⟨by simp, by simp⟩).1

theorem byDayOf_memPair (es : List RawStarsEntry) (d q : String) :
    memPair (byDayOf es) d q ↔
      ∃ e ∈ es, jsToUpperCase e.DAY = d ∧ jsToUpperCase e.PERIOD = q := by
  unfold byDayOf
  rw [(byDay_fold_spec es [] ⟨by simp, by simp⟩).2 d q]
  simp [memPair, alookup]

theorem mem_insertionSort_iff {α : Type} (r : α → α → Prop) [DecidableRel r]
    (l : List α) (a : α) : a ∈ List.insertionSort r l ↔ a ∈ l :=
  (List.perm_insertionSort r l).mem_iff

theorem mem_normalizePeriodEntries (es : List RawStarsEntry) (p : PeriodEntry) :
    p ∈ normalizePeriodEntries es ↔
      ∃ d q, memPair (byDayOf es) d q ∧ p = mkPeriodEntry d q := by
  unfold normalizePeriodEntries sortPeriods
  simp only [List.mem_flatMap, List.mem_map]
  constructor
  · rintro ⟨day, hday, q, hq, rfl⟩
    have hday' : day ∈ (byDayOf es).map Prod.fst :=
      (mem_insertionSort_iff _ _ _).mp hday
    obtain ⟨ps, hps⟩ := alookup_isSome_of_mem_keys hday'
    have hq' : q ∈ (alookup (byDayOf es) day).getD [] :=
      (mem_insertionSort_iff _ _ _).mp hq
    rw [hps] at hq'
    exact ⟨day, q, ⟨ps, hps, by simpa using hq'⟩, rfl⟩
  · rintro ⟨d, q, ⟨ps, hps, hq⟩, rfl⟩
    have hdk : d ∈ (byDayOf es).map Prod.fst :=
      List.mem_map.mpr ⟨(d, ps), alookup_mem hps, rfl⟩
    refine ⟨d, (mem_insertionSort_iff _ _ _).mpr hdk, q, ?_, rfl⟩
    apply (mem_insertionSort_iff _ _ _).mpr
    rw [hps]
    simpa using hq

theorem normalizePeriodEntries_shape (es : List RawStarsEntry) :
    ∀ p ∈ normalizePeriodEntries es,
      jsToUpperCase p.day = p.day ∧ jsToUpperCase p.period = p.period ∧
        p = mkPeriodEntry p.day p.period := by
  intro p hp
  obtain ⟨d, q, ⟨ps, hps, hq⟩, rfl⟩ := (mem_normalizePeriodEntries es p).mp hp
  obtain ⟨_, _, hud, huq⟩ := (byDayOf_wf es).2 (d, ps) (alookup_mem hps)
  exact ⟨hud, huq q hq, rfl⟩

theorem normalizePeriodEntries_ne_nil {es : List RawStarsEntry} (h : es ≠ []) :
    normalizePeriodEntries es ≠ [] := by
  obtain ⟨e, rest, rfl⟩ := List.exists_cons_of_ne_nil h
  have hmem : memPair (byDayOf (e :: rest)) (jsToUpperCase e.DAY) (jsToUpperCase e.PERIOD) :=
    (byDayOf_memPair _ _ _).mpr ⟨e, by simp, rfl, rfl⟩
  have : mkPeriodEntry (jsToUpperCase e.DAY) (jsToUpperCase e.PERIOD) ∈
      normalizePeriodEntries (e :: rest) :=
    (mem_normalizePeriodEntries _ _).mpr ⟨_, _, hmem, rfl⟩
  exact List.ne_nil_of_mem this

/-! ## Invariants of the dataset builder -/

/-- Shape invariant of a size bucket attached by the builder: no status
fields yet, a non-empty period list whose day/period codes are fixed by
upper-casing, and a bucket key taken verbatim from the raw snapshot. -/
def GoodBucket (s : RawStarsData) (sr : String × SizeAvailability) : Prop :=
  sr.2.isAvailableNow = none ∧ sr.2.nextAvailable = none ∧ sr.2.periods ≠ [] ∧
  (∀ p ∈ sr.2.periods, jsToUpperCase p.day = p.day ∧ jsToUpperCase p.period = p.period ∧
    p = mkPeriodEntry p.day p.period) ∧
  ∃ rb ∈ s.buildings, sr.1 ∈ rb.sizes.map Prod.fst

/-- Shape invariant of a room record built by the builder. -/
def GoodRoom (s : RawStarsData) (r : RoomAvailability) : Prop :=
  r.availability ≠ [] ∧ (r.availability.map Prod.fst).Nodup ∧
  ∀ sr ∈ r.availability, GoodBucket s sr

theorem groupByRoom_ne_nil (entries : List RawStarsEntry) :
    ∀ g ∈ groupByRoom entries, g.2 ≠ [] := by
  unfold groupByRoom
  refine foldl_preserve (fun acc : List (String × List RawStarsEntry) => ∀ g ∈ acc, g.2 ≠ []) ?_ (by simp)
  intro acc entry _ hacc g hg
  simp only at hg
  cases hfind : alookup acc (padStart entry.ROOM 4 '0') with
  | some group =>
    rw [hfind] at hg
    rcases mem_setKey hg with h | h
    · subst h; simp
    · exact hacc g h
  | none =>
    rw [hfind] at hg
    rcases List.mem_append.mp hg with h | h
    · exact hacc g h
    · simp only [List.mem_singleton] at h
      subst h
      simp

theorem processRoom_good {s : RawStarsData} {cm : List (String × RawClassroomRecord)}
    {code : Option String} {size : String}
    {roomsMap : List (String × RoomAvailability)} {grp : String × List RawStarsEntry}
    (hmap : ∀ nr ∈ roomsMap, GoodRoom s nr.2) (hgrp : grp.2 ≠ [])
    (hkey : ∃ rb ∈ s.buildings, size ∈ rb.sizes.map Prod.fst) :
    ∀ nr ∈ processRoom cm code size roomsMap grp, GoodRoom s nr.2 := by
  intro nr hnr
  unfold processRoom at hnr
  have hne := normalizePeriodEntries_ne_nil hgrp
  have hfalse : (normalizePeriodEntries grp.2).isEmpty = false := by
    cases hl : (normalizePeriodEntries grp.2).isEmpty with
    | true => exact absurd (List.isEmpty_iff.mp hl) hne
    | false => rfl
  rw [hfalse] at hnr
  simp only [Bool.false_eq_true, if_false] at hnr
  have hrecGood : (currentRoom cm code roomsMap grp.1).availability = [] ∨
      GoodRoom s (currentRoom cm code roomsMap grp.1) := by
    unfold currentRoom
    cases hfind : alookup roomsMap grp.1 with
    | some r => exact Or.inr (hmap (grp.1, r) (alookup_mem hfind))
    | none => exact Or.inl rfl
  rcases mem_setKey hnr with h | h
  · subst h
    refine ⟨setKey_ne_nil _ _ _, ?_, ?_⟩
    · apply setKey_keys_nodup
      rcases hrecGood with h' | h'
      · simp [h']
      · exact h'.2.1
    · intro sr hsr
      rcases mem_setKey hsr with h' | h'
      · subst h'
        exact ⟨rfl, rfl, hne, fun p hp => normalizePeriodEntries_shape _ p hp, hkey⟩
      · rcases hrecGood with h'' | h''
        · rw [h''] at h'; simp at h'
        · exact h''.2.2 sr h'
  · exact hmap nr h

theorem processSize_good {s : RawStarsData} {cm : List (String × RawClassroomRecord)}
    {code : Option String} {roomsMap : List (String × RoomAvailability)}
    {sizeEntry : String × List RawStarsEntry}
    (hmap : ∀ nr ∈ roomsMap, GoodRoom s nr.2)
    (hkey : ∃ rb ∈ s.buildings, sizeEntry.1 ∈ rb.sizes.map Prod.fst) :
    ∀ nr ∈ processSize cm code roomsMap sizeEntry, GoodRoom s nr.2 := by
  unfold processSize
  refine foldl_preserve (fun m : List (String × RoomAvailability) => ∀ nr ∈ m, GoodRoom s nr.2) ?_ hmap
  intro m grp hgrp hm
  exact processRoom_good hm (groupByRoom_ne_nil _ _ hgrp) hkey

theorem processBuilding_good {s : RawStarsData} {cm : List (String × RawClassroomRecord)}
    {bm : List (String × BuildingAcc)} {building : RawStarsBuilding}
    (hb : building ∈ s.buildings)
    (hbm : ∀ ib ∈ bm, ∀ nr ∈ ib.2.roomsMap, GoodRoom s nr.2) :
    ∀ ib ∈ processBuilding cm bm building, ∀ nr ∈ ib.2.roomsMap, GoodRoom s nr.2 := by
  intro ib hib
  unfold processBuilding at hib
  rcases mem_setKey hib with h | h
  · subst h
    simp only
    have hroot : ∀ nr ∈ (currentBuildingAcc bm building).roomsMap, GoodRoom s nr.2 := by
      unfold currentBuildingAcc
      cases hfind : alookup bm building.id with
      | some r => exact hbm (building.id, r) (alookup_mem hfind)
      | none => simp
    refine foldl_preserve (fun m : List (String × RoomAvailability) => ∀ nr ∈ m, GoodRoom s nr.2) ?_ hroot
    intro m se hse hm
    exact processSize_good hm ⟨building, hb, List.mem_map.mpr ⟨se, hse, rfl⟩⟩
  · exact hbm ib h

/-- Every room of every building of a built dataset satisfies `GoodRoom`. -/
theorem build_room_good (s : RawStarsData) (classrooms : Option RawClassroomDataset)
    (nowIso : String) :
    ∀ b ∈ (buildAvailabilityDataset (some s) classrooms nowIso).buildings,
      ∀ r ∈ b.rooms, GoodRoom s r := by
  intro b hb r hr
  unfold buildAvailabilityDataset at hb
  simp only at hb
  rw [mem_insertionSort_iff] at hb
  simp only [List.mem_map] at hb
  obtain ⟨acc, hacc, rfl⟩ := hb
  obtain ⟨ib, hib, rfl⟩ := hacc
  have hbm : ∀ jb ∈ s.buildings.foldl (processBuilding (classroomMapOf classrooms)) [],
      ∀ nr ∈ jb.2.roomsMap, GoodRoom s nr.2 := by
    refine foldl_preserve
      (fun bm : List (String × BuildingAcc) =>
        ∀ jb ∈ bm, ∀ nr ∈ jb.2.roomsMap, GoodRoom s nr.2) ?_ (by simp)
    intro bm building hmem hbm
    exact processBuilding_good hmem hbm
  unfold finalizeBuilding at hr
  simp only at hr
  rw [mem_insertionSort_iff] at hr
  simp only [List.mem_map] at hr
  obtain ⟨nr, hnr, rfl⟩ := hr
  exact hbm ib hib nr hnr

/-! ## Concrete example data -/

/-- A small schedule snapshot whose single size-bucket key `"a"` is
lower-case. -/
def exStars : RawStarsData :=
  ⟨"t0", "Fall", ["10"],
    [⟨"b1", "Bldg", some "and", none, none, none, [("a", [⟨"13", "m", "2"⟩])]⟩]⟩

/-- The building produced by `buildAvailabilityDataset` from `exStars`. -/
def exBuilding : BuildingAvailability :=
  ⟨"b1", some "AND", "Bldg", none, none, none,
    [⟨"0013", none,
      [("a", ⟨[⟨"M", "2", "8:30 AM", "9:20 AM", 510, 560⟩], none, none⟩)]⟩]⟩

/-- The room of `exBuilding`. -/
def exRoom : RoomAvailability :=
  ⟨"0013", none,
    [("a", ⟨[⟨"M", "2", "8:30 AM", "9:20 AM", 510, 560⟩], none, none⟩)]⟩

/-! ## Claim C2 -/

/-- C2: for every `SizeAvailability` periods list and every current time
context, `computeStatus` (the status computation applied by
`applyRealtimeStatus` to every room/size record) returns
`isAvailableNow = true` iff some `PeriodEntry` has `day` equal to the context
day code and `startMinutes ≤ minutes < endMinutes`; on an empty periods list
it returns `isAvailableNow = false` and `nextAvailable = null`. -/
theorem C2_isAvailableNow_iff :
    ∀ (periods : List PeriodEntry) (context : TimeContext),
      ((computeStatus periods context).isAvailableNow = true ↔
        ∃ p ∈ periods, p.day = context.dayCode ∧
          p.startMinutes ≤ context.minutes ∧ context.minutes < p.endMinutes) ∧
      computeStatus [] context = ⟨false, none⟩ := by
  intro periods context
  constructor
  · unfold computeStatus
    cases hE : periods.isEmpty with
    | true =>
      have : periods = [] := List.isEmpty_iff.mp hE
      subst this
      simp
    | false =>
      simp only [Bool.false_eq_true, if_false, List.any_eq_true, Bool.and_eq_true,
        beq_iff_eq, decide_eq_true_eq]
      constructor
      · rintro ⟨p, hp, ⟨h1, h2⟩, h3⟩
        exact ⟨p, hp, h1, h2, h3⟩
      · rintro ⟨p, hp, h1, h2, h3⟩
        exact ⟨p, hp, ⟨h1, h2⟩, h3⟩
  · unfold computeStatus
    simp

/-! ## Claim C7 -/

/-- C7: for every valid schedule snapshot (and any metadata snapshot or
none), `buildAvailabilityDataset` is total (the embedding is a total
function, so no exception can arise), and every room appearing in the output
has at least one size bucket with a non-empty period list. -/
theorem C7_rooms_have_nonempty_bucket :
    ∀ (s : RawStarsData) (classrooms : Option RawClassroomDataset) (nowIso : String),
      ∀ b ∈ (buildAvailabilityDataset (some s) classrooms nowIso).buildings,
        ∀ r ∈ b.rooms, ∃ sr ∈ r.availability, sr.2.periods ≠ [] := by
  intro s classrooms nowIso b hb r hr
  obtain ⟨hne, _, hall⟩ := build_room_good s classrooms nowIso b hb r hr
  obtain ⟨sr, hsr⟩ := List.exists_mem_of_ne_nil _ hne
  exact ⟨sr, hsr, (hall sr hsr).2.2.1⟩

/-- Witness for C7 at a concrete snapshot. -/
theorem C7_witness :
    ∃ sr ∈ exRoom.availability, sr.2.periods ≠ [] :=
  C7_rooms_have_nonempty_bucket exStars none "now"
    exBuilding (by decide) exRoom (by decide)

/-! ## Claim C4 -/

/-- A persisted dataset holding one room with an (already ill-formed) empty
size bucket. -/
def exLooseEmptyBucket : LooseDataset :=
  ⟨"t", "F", [],
    [⟨"b1", some "A", "B", none, none, none,
      [⟨"0001", none, [("10", LooseSize.obj [])]⟩]⟩]⟩

/-- C4 counterexample: `normalizeAvailabilityDataset` produces a dataset in
which the size bucket `"10"` appears as a key with an empty period list, so
not every operation producing an `AvailabilityDataset` maintains the
no-empty-bucket invariant. -/
theorem C4_counterexample :
    ∃ b ∈ (normalizeAvailabilityDataset exLooseEmptyBucket).buildings,
      ∃ r ∈ b.rooms, ∃ sr ∈ r.availability, sr.2.periods = [] := by
  decide

/-- All classified size records of a loose room are well-formed arrays or
objects with a non-empty period list. -/
def LooseNonEmpty (d : LooseDataset) : Prop :=
  ∀ lb ∈ d.buildings, ∀ lr ∈ lb.rooms, ∀ sr ∈ lr.availability,
    ∃ ps, (sr.2 = LooseSize.arr ps ∨ sr.2 = LooseSize.obj ps) ∧ ps ≠ []

theorem mem_foldl_setKey {α β : Type} (g : α → β) (l : List (String × α)) :
    ∀ x ∈ l.foldl (fun acc p => setKey acc p.1 (g p.2)) [], ∃ p ∈ l, x = (p.1, g p.2) := by
  refine foldl_preserve
    (fun acc : List (String × β) => ∀ x ∈ acc, ∃ p ∈ l, x = (p.1, g p.2)) ?_ (by simp)
  intro acc p hp hacc x hx
  rcases mem_setKey hx with h | h
  · exact ⟨p, hp, h⟩
  · exact hacc x h

/-- C4 (amended): `buildAvailabilityDataset` never attaches an empty size
bucket; `normalizeAvailabilityDataset` keeps every existing key and yields an
empty period list for empty or malformed records, so it maintains the
invariant only when every input bucket is a well-formed array or object with
a non-empty period list. -/
theorem C4_amended :
    (∀ (s : RawStarsData) (classrooms : Option RawClassroomDataset) (nowIso : String),
      ∀ b ∈ (buildAvailabilityDataset (some s) classrooms nowIso).buildings,
        ∀ r ∈ b.rooms, ∀ sr ∈ r.availability, sr.2.periods ≠ []) ∧
    (∀ d : LooseDataset, LooseNonEmpty d →
      ∀ b ∈ (normalizeAvailabilityDataset d).buildings,
        ∀ r ∈ b.rooms, ∀ sr ∈ r.availability, sr.2.periods ≠ []) := by
  constructor
  · intro s classrooms nowIso b hb r hr sr hsr
    exact ((build_room_good s classrooms nowIso b hb r hr).2.2 sr hsr).2.2.1
  · intro d hd b hb r hr sr hsr
    unfold normalizeAvailabilityDataset at hb
    simp only [List.mem_map] at hb
    obtain ⟨lb, hlb, rfl⟩ := hb
    simp only [List.mem_map] at hr
    obtain ⟨lr, hlr, rfl⟩ := hr
    simp only at hsr
    obtain ⟨p, hp, rfl⟩ := mem_foldl_setKey _ _ sr hsr
    obtain ⟨ps, hps, hne⟩ := hd lb hlb lr hlr p hp
    rcases hps with h | h <;>
      simp [normalizeSizeRecord, h, hne]

/-- Witness for C4 (amended) at a concrete snapshot. -/
theorem C4_witness :
    ("a", (⟨[⟨"M", "2", "8:30 AM", "9:20 AM", 510, 560⟩], none, none⟩ : SizeAvailability)).2.periods
      ≠ ([] : List PeriodEntry) :=
  C4_amended.1 exStars none "now" exBuilding (by decide) exRoom (by decide) _ (by decide)

/-! ## Claim C3 -/

/-- C3 counterexample: built from a snapshot with the lower-case size-bucket
key `"a"`, the dataset's room availability map keeps the key `"a"`, which is
not an upper-cased string. -/
theorem C3_counterexample :
    ∃ b ∈ (buildAvailabilityDataset (some exStars) none "now").buildings,
      ∃ r ∈ b.rooms, ∃ k ∈ r.availability.map Prod.fst, jsToUpperCase k ≠ k := by
  decide

/-- C3 (amended): size-bucket keys are carried through verbatim from the raw
snapshot rather than upper-cased: every key of every room's availability map
occurs as a size-bucket key of some raw building of the snapshot. -/
theorem C3_amended :
    ∀ (s : RawStarsData) (classrooms : Option RawClassroomDataset) (nowIso : String),
      ∀ b ∈ (buildAvailabilityDataset (some s) classrooms nowIso).buildings,
        ∀ r ∈ b.rooms, ∀ k ∈ r.availability.map Prod.fst,
          ∃ rb ∈ s.buildings, k ∈ rb.sizes.map Prod.fst := by
  intro s classrooms nowIso b hb r hr k hk
  obtain ⟨sr, hsr, rfl⟩ := List.mem_map.mp hk
  exact ((build_room_good s classrooms nowIso b hb r hr).2.2 sr hsr).2.2.2.2

/-- Witness for C3 (amended): the key `"a"` of the example room occurs
verbatim in the example snapshot. -/
theorem C3_witness :
    ∃ rb ∈ exStars.buildings, "a" ∈ rb.sizes.map Prod.fst :=
  C3_amended exStars none "now" exBuilding (by decide) exRoom (by decide) "a" (by decide)

/-! ## Claim C9 -/

/-- C9: `applyRealtimeStatus` with no derivable time context returns the
dataset unchanged; with a context it changes only the `SizeAvailability`
records — each record keeps its periods list element-wise (the defensive copy
is the identity at the value level) and gets exactly the `computeStatus`
status fields — while all dataset, building and room fields (including
availability keys) are unchanged.  In-place mutation and reference identity
are modelled by value identity of the returned dataset. -/
theorem C9_frame :
    ∀ (d : AvailabilityDataset) (ctx : TimeContext),
      applyRealtimeStatus none d = d ∧
      (applyRealtimeStatus (some ctx) d).fetchedAt = d.fetchedAt ∧
      (applyRealtimeStatus (some ctx) d).term = d.term ∧
      (applyRealtimeStatus (some ctx) d).classSizes = d.classSizes ∧
      (applyRealtimeStatus (some ctx) d).buildings.map
          (fun b => (b.id, b.code, b.name, b.campusId, b.lat, b.lng)) =
        d.buildings.map
          (fun b => (b.id, b.code, b.name, b.campusId, b.lat, b.lng)) ∧
      (applyRealtimeStatus (some ctx) d).buildings.map (fun b => b.rooms.map (fun r =>
          (r.number, r.metadata, r.availability.map (fun sr => (sr.1, sr.2.periods))))) =
        d.buildings.map (fun b => b.rooms.map (fun r =>
          (r.number, r.metadata, r.availability.map (fun sr => (sr.1, sr.2.periods))))) ∧
      (applyRealtimeStatus (some ctx) d).buildings.map (fun b => b.rooms.map (fun r =>
          r.availability.map (fun sr => (sr.2.isAvailableNow, sr.2.nextAvailable)))) =
        d.buildings.map (fun b => b.rooms.map (fun r => r.availability.map (fun sr =>
          (some (computeStatus sr.2.periods ctx).isAvailableNow,
           some (computeStatus sr.2.periods ctx).nextAvailable)))) := by
  intro d ctx
  refine ⟨rfl, rfl, rfl, rfl, ?_, ?_, ?_⟩ <;>
    simp [applyRealtimeStatus, List.map_map, Function.comp_def]

/-! ## Claim C6 -/

theorem mapToPeriodEntry_looseOf {p : PeriodEntry}
    (hd : jsToUpperCase p.day = p.day) (hq : jsToUpperCase p.period = p.period) :
    mapToPeriodEntry (looseOfPeriodEntry p) = p := by
  obtain ⟨day, period, startTime, endTime, startMinutes, endMinutes⟩ := p
  simp only at hd hq
  simp [mapToPeriodEntry, looseOfPeriodEntry, Option.or, hd, hq]

/-- Canonical-shape facts needed for the normalization round trip. -/
def CanonRoom (r : RoomAvailability) : Prop :=
  (r.availability.map Prod.fst).Nodup ∧
  ∀ sr ∈ r.availability, sr.2.isAvailableNow = none ∧ sr.2.nextAvailable = none ∧
    ∀ p ∈ sr.2.periods, jsToUpperCase p.day = p.day ∧ jsToUpperCase p.period = p.period

theorem normalize_looseOf {D : AvailabilityDataset}
    (h : ∀ b ∈ D.buildings, ∀ r ∈ b.rooms, CanonRoom r) :
    normalizeAvailabilityDataset (looseOfDataset D) = D := by
  obtain ⟨ft, tm, cs, bs⟩ := D
  unfold normalizeAvailabilityDataset looseOfDataset
  simp only [List.map_map, Function.comp_def]
  congr 1
  conv_rhs => rw [← List.map_id bs]
  apply List.map_congr_left
  intro b hb
  obtain ⟨bid, bcode, bname, bcampus, blat, blng, rooms⟩ := b
  simp only [List.map_map, Function.comp_def, id]
  congr 1
  conv_rhs => rw [← List.map_id rooms]
  apply List.map_congr_left
  intro r hr
  obtain ⟨hnodup, hrec⟩ := h _ hb r hr
  obtain ⟨number, metadata, availability⟩ := r
  simp only [id]
  congr 1
  rw [foldl_setKey_map (fun sr => normalizeSizeRecord sr.2)
    (availability.map (fun sr => (sr.1, LooseSize.obj (sr.2.periods.map looseOfPeriodEntry))))
    [] (by simpa [List.map_map, Function.comp_def] using hnodup) (by simp) (by simp)]
  simp only [List.nil_append, List.map_map, Function.comp_def, normalizeSizeRecord]
  conv_rhs => rw [← List.map_id availability]
  apply List.map_congr_left
  intro sr hsr
  obtain ⟨hnow, hnext, hper⟩ := hrec sr hsr
  obtain ⟨size, rec⟩ := sr
  obtain ⟨periods, inow, inext⟩ := rec
  simp only at hnow hnext hper
  subst hnow
  subst hnext
  simp only [id, Prod.mk.injEq, true_and]
  congr 1
  conv_rhs => rw [← List.map_id periods]
  apply List.map_congr_left
  intro p hp
  simp only [id]
  exact mapToPeriodEntry_looseOf (hper p hp).1 (hper p hp).2

/-- C6: datasets produced by `buildAvailabilityDataset` are fixed points of
`normalizeAvailabilityDataset` (viewed through the loose persisted shape):
the normalizing reshape changes nothing on a freshly built dataset. -/
theorem C6_fixed_point :
    ∀ (stars : Option RawStarsData) (classrooms : Option RawClassroomDataset)
      (nowIso : String),
      normalizeAvailabilityDataset
          (looseOfDataset (buildAvailabilityDataset stars classrooms nowIso)) =
        buildAvailabilityDataset stars classrooms nowIso := by
  intro stars classrooms nowIso
  cases stars with
  | none => rfl
  | some s =>
    apply normalize_looseOf
    intro b hb r hr
    obtain ⟨_, hnodup, hall⟩ := build_room_good s classrooms nowIso b hb r hr
    refine ⟨hnodup, ?_⟩
    intro sr hsr
    obtain ⟨h1, h2, _, h4, _⟩ := hall sr hsr
    exact ⟨h1, h2, fun p hp => ⟨(h4 p hp).1, (h4 p hp).2.1⟩⟩

/-! ## Claim C8 -/

/-- Two buildings both with code "AND", in map order [Zeta, Alpha]. -/
def exTieStars : RawStarsData :=
  ⟨"t", "F", [],
    [⟨"z1", "Zeta", some "AND", none, none, none, [("10", [⟨"1", "M", "2"⟩])]⟩,
     ⟨"a1", "Alpha", some "AND", none, none, none, [("10", [⟨"1", "M", "2"⟩])]⟩]⟩

/-- Buildings with codes "MAT", no code, and "AND", in that map order. -/
def exSortStars : RawStarsData :=
  ⟨"t", "F", [],
    [⟨"m1", "MatBldg", some "MAT", none, none, none, [("10", [⟨"1", "M", "2"⟩])]⟩,
     ⟨"n1", "NoCode", none, none, none, none, [("10", [⟨"1", "M", "2"⟩])]⟩,
     ⟨"a1", "AndBldg", some "AND", none, none, none, [("10", [⟨"1", "M", "2"⟩])]⟩]⟩

/-- C8 counterexample: two buildings with the equal code "AND" keep their
building-map insertion order [Zeta, Alpha]; they are not reordered by name,
contradicting "ties (equal codes) ... ordered by name". -/
theorem C8_counterexample :
    (buildAvailabilityDataset (some exTieStars) none "n").buildings.map
        (fun b => b.name) = ["Zeta", "Alpha"] ∧
      jsStrLt "Alpha" "Zeta" = true := by
  constructor
  · decide
  · decide

/-- The building order of the spec, with equal codes left unordered: a truthy
(non-null, non-empty) code sorts before no code, two truthy codes compare by
code, and two no-code buildings compare by name. -/
def buildingOrderSpec (a b : BuildingAvailability) : Prop :=
  match buildingSortKey a, buildingSortKey b with
  | some x, some y => jsStrLE x y
  | some _, none => True
  | none, some _ => False
  | none, none => jsStrLE a.name b.name

theorem buildingOrderSpec_of_le {a b : BuildingAvailability}
    (h : jsLE buildingCompare a b) : buildingOrderSpec a b := by
  unfold jsLE at h
  rw [buildingCompare_eq] at h
  unfold buildingOrderSpec
  rcases hka : buildingSortKey a with _ | x <;>
    rcases hkb : buildingSortKey b with _ | y <;>
    simp only [hka, hkb] at h ⊢
  · exact (localeCompare_le_iff _ _).mp h
  · exact absurd h (by norm_num)
  · exact (localeCompare_le_iff _ _).mp h

/-- C8 (amended): in every built dataset, rooms within a building are sorted
by room number and buildings are sorted by the spec order (code before
no-code, codes lexicographic, no-code pairs by name); buildings with equal
codes keep their building-map insertion order instead of being reordered by
name; the codes "AND", "MAT" and one no-code building sort as
[AND, MAT, no-code]. -/
theorem C8_amended :
    (∀ (s : RawStarsData) (classrooms : Option RawClassroomDataset) (nowIso : String),
      List.Pairwise buildingOrderSpec
          (buildAvailabilityDataset (some s) classrooms nowIso).buildings ∧
        ∀ b ∈ (buildAvailabilityDataset (some s) classrooms nowIso).buildings,
          List.Pairwise (fun x y : RoomAvailability => jsStrLE x.number y.number) b.rooms) ∧
    (buildAvailabilityDataset (some exSortStars) none "t").buildings.map
        (fun b => (b.code, b.name)) =
      [(some "AND", "AndBldg"), (some "MAT", "MatBldg"), (none, "NoCode")] := by
  constructor
  · intro s classrooms nowIso
    constructor
    · refine List.Pairwise.imp (fun h => buildingOrderSpec_of_le h) ?_
      exact List.sorted_insertionSort (jsLE buildingCompare) _
    · intro b hb
      unfold buildAvailabilityDataset at hb
      simp only at hb
      rw [mem_insertionSort_iff] at hb
      simp only [List.mem_map] at hb
      obtain ⟨acc, ⟨ib, hib, rfl⟩, rfl⟩ := hb
      unfold finalizeBuilding
      simp only
      refine List.Pairwise.imp (fun h => (roomCompare_le_iff _ _).mp h) ?_
      exact List.sorted_insertionSort (jsLE roomCompare) _
  · decide

/-- Witness for C8 (amended) at a concrete built dataset. -/
theorem C8_witness :
    List.Pairwise (fun x y : RoomAvailability => jsStrLE x.number y.number) exBuilding.rooms :=
  (C8_amended.1 exStars none "now").2 exBuilding (by decide)

/-! ## Claim C5 -/

/-- The (day, period) pairs of a normalized output. -/
def entryPairs (l : List PeriodEntry) : List (String × String) :=
  l.map (fun p => (p.day, p.period))

/-- The upper-cased (day, period) pairs of a raw input. -/
def rawPairs (es : List RawStarsEntry) : List (String × String) :=
  es.map (fun e => (jsToUpperCase e.DAY, jsToUpperCase e.PERIOD))

/-- The within-day period order of the spec: ascending by the period table's
clock start time, unknown codes after known ones, lexicographic among
unknown codes. -/
def periodOrderSpec (a b : String) : Prop :=
  match alookup PERIOD_START_TIMES_24 a, alookup PERIOD_START_TIMES_24 b with
  | some ta, some tb => toMinutes ta ≤ toMinutes tb
  | some _, none => True
  | none, some _ => False
  | none, none => jsStrLE a b

/-- The output pair order of the spec: strictly increasing weekly day order,
then the within-day period order. -/
def pairOrderSpec (a b : String × String) : Prop :=
  dayOrderVal a.1 < dayOrderVal b.1 ∨ (a.1 = b.1 ∧ periodOrderSpec a.2 b.2)

theorem periodOrderSpec_of_le {a b : String} (h : jsLE periodCompare a b) :
    periodOrderSpec a b := by
  unfold jsLE periodCompare at h
  unfold periodOrderSpec
  rcases ha : alookup PERIOD_START_TIMES_24 a with _ | ta <;>
    rcases hb : alookup PERIOD_START_TIMES_24 b with _ | tb <;>
    simp only [ha, hb] at h ⊢
  · exact (localeCompare_le_iff _ _).mp h
  · exact absurd h (by norm_num)
  · omega

theorem periodTable_start_inj :
    ∀ p ∈ PERIOD_START_TIMES_24, ∀ q ∈ PERIOD_START_TIMES_24,
      toMinutes p.2 = toMinutes q.2 → p.1 = q.1 := by
  decide

theorem periodOrderSpec_antisymm {a b : String} (hab : periodOrderSpec a b)
    (hba : periodOrderSpec b a) : a = b := by
  unfold periodOrderSpec at hab hba
  rcases ha : alookup PERIOD_START_TIMES_24 a with _ | ta <;>
    rcases hb : alookup PERIOD_START_TIMES_24 b with _ | tb <;>
    simp only [ha, hb] at hab hba
  · exact jsStrLE_antisymm hab hba
  · exact periodTable_start_inj (a, ta) (alookup_mem ha) (b, tb) (alookup_mem hb)
      (le_antisymm hab hba)

instance : IsAntisymm (String × String) pairOrderSpec := by
  constructor
  intro a b hab hba
  unfold pairOrderSpec at hab hba
  rcases hab with h1 | ⟨hd1, hp1⟩ <;> rcases hba with h2 | ⟨hd2, hp2⟩
  · omega
  · rw [hd2] at h1; omega
  · rw [hd1] at h2; omega
  · obtain ⟨da, qa⟩ := a
    obtain ⟨db, qb⟩ := b
    simp only at hd1 hp1 hp2 ⊢
    exact Prod.ext hd1 (periodOrderSpec_antisymm hp1 hp2)

theorem dayOrderVal_inj :
    ∀ x ∈ DAY_SEQUENCE, ∀ y ∈ DAY_SEQUENCE, dayOrderVal x = dayOrderVal y → x = y := by
  decide

/-- Every day key of the `byDay` map comes from some entry. -/
theorem byDayOf_keys_known {es : List RawStarsEntry}
    (hdays : ∀ e ∈ es, jsToUpperCase e.DAY ∈ DAY_SEQUENCE) :
    ∀ d ∈ (byDayOf es).map Prod.fst, d ∈ DAY_SEQUENCE := by
  intro d hd
  obtain ⟨ps, hps⟩ := alookup_isSome_of_mem_keys hd
  obtain ⟨hne, _, _, _⟩ := (byDayOf_wf es).2 (d, ps) (alookup_mem hps)
  obtain ⟨q, hq⟩ := List.exists_mem_of_ne_nil _ hne
  obtain ⟨e, he, hed, _⟩ := (byDayOf_memPair es d q).mp ⟨ps, hps, hq⟩
  rw [← hed]
  exact hdays e he

/-- The pairs of a normalized output, in block form. -/
theorem entryPairs_normalize (es : List RawStarsEntry) :
    entryPairs (normalizePeriodEntries es) =
      (List.insertionSort (jsLE dayCompare) ((byDayOf es).map Prod.fst)).flatMap
        (fun day => (sortPeriods ((alookup (byDayOf es) day).getD [])).map
          (fun q => (day, q))) := by
  unfold entryPairs normalizePeriodEntries
  rw [List.map_flatMap]
  congr 1
  funext day
  rw [List.map_map]
  rfl

theorem entryPairs_mem (es : List RawStarsEntry) (pr : String × String) :
    pr ∈ entryPairs (normalizePeriodEntries es) ↔ pr ∈ rawPairs es := by
  unfold entryPairs rawPairs
  simp only [List.mem_map]
  constructor
  · rintro ⟨p, hp, rfl⟩
    obtain ⟨d, q, hmp, rfl⟩ := (mem_normalizePeriodEntries es p).mp hp
    obtain ⟨e, he, h1, h2⟩ := (byDayOf_memPair es d q).mp hmp
    exact ⟨e, he, by rw [h1, h2]; rfl⟩
  · rintro ⟨e, he, rfl⟩
    have hmp : memPair (byDayOf es) (jsToUpperCase e.DAY) (jsToUpperCase e.PERIOD) :=
      (byDayOf_memPair es _ _).mpr ⟨e, he, rfl, rfl⟩
    exact ⟨mkPeriodEntry (jsToUpperCase e.DAY) (jsToUpperCase e.PERIOD),
      (mem_normalizePeriodEntries es _).mpr ⟨_, _, hmp, rfl⟩, rfl⟩

theorem days_of_normalize_facts (es : List RawStarsEntry) :
    (List.insertionSort (jsLE dayCompare) ((byDayOf es).map Prod.fst)).Nodup ∧
    (∀ d ∈ List.insertionSort (jsLE dayCompare) ((byDayOf es).map Prod.fst),
      d ∈ (byDayOf es).map Prod.fst) := by
  constructor
  · exact ((List.perm_insertionSort _ _).nodup_iff).mpr (byDayOf_wf es).1
  · intro d hd
    exact (mem_insertionSort_iff _ _ _).mp hd

theorem sorted_block_nodup {es : List RawStarsEntry} {day : String}
    (hday : day ∈ (byDayOf es).map Prod.fst) :
    (sortPeriods ((alookup (byDayOf es) day).getD [])).Nodup := by
  obtain ⟨ps, hps⟩ := alookup_isSome_of_mem_keys hday
  rw [hps]
  obtain ⟨_, hnd, _, _⟩ := (byDayOf_wf es).2 (day, ps) (alookup_mem hps)
  unfold sortPeriods
  exact ((List.perm_insertionSort _ _).nodup_iff).mpr hnd

theorem entryPairs_nodup (es : List RawStarsEntry) :
    (entryPairs (normalizePeriodEntries es)).Nodup := by
  rw [entryPairs_normalize]
  obtain ⟨hdnd, hdk⟩ := days_of_normalize_facts es
  show List.Pairwise _ (List.flatten _)
  refine List.pairwise_flatten.mpr ⟨?_, ?_⟩
  · intro l hl
    simp only [List.mem_map] at hl
    obtain ⟨day, hday, rfl⟩ := hl
    refine List.pairwise_map.mpr ?_
    refine List.Pairwise.imp ?_ (sorted_block_nodup (hdk day hday))
    intro q1 q2 hq
    simp [hq]
  · refine List.pairwise_map.mpr ?_
    refine List.Pairwise.imp ?_ hdnd
    intro d1 d2 hne x hx y hy
    simp only [List.mem_map] at hx hy
    obtain ⟨q1, _, rfl⟩ := hx
    obtain ⟨q2, _, rfl⟩ := hy
    simp [hne]

theorem entryPairs_pairwise {es : List RawStarsEntry}
    (hdays : ∀ e ∈ es, jsToUpperCase e.DAY ∈ DAY_SEQUENCE) :
    List.Pairwise pairOrderSpec (entryPairs (normalizePeriodEntries es)) := by
  rw [entryPairs_normalize]
  obtain ⟨hdnd, hdk⟩ := days_of_normalize_facts es
  show List.Pairwise _ (List.flatten _)
  refine List.pairwise_flatten.mpr ⟨?_, ?_⟩
  · intro l hl
    simp only [List.mem_map] at hl
    obtain ⟨day, hday, rfl⟩ := hl
    refine List.pairwise_map.mpr ?_
    refine List.Pairwise.imp ?_ (List.sorted_insertionSort (jsLE periodCompare) _)
    intro q1 q2 hq
    exact Or.inr ⟨rfl, periodOrderSpec_of_le hq⟩
  · refine List.pairwise_map.mpr ?_
    have hsorted : List.Pairwise (jsLE dayCompare)
        (List.insertionSort (jsLE dayCompare) ((byDayOf es).map Prod.fst)) :=
      List.sorted_insertionSort (jsLE dayCompare) _
    have hcomb := hsorted.and hdnd
    refine List.Pairwise.imp_of_mem ?_ hcomb
    intro d1 d2 hd1 hd2 hpair x hx y hy
    simp only [List.mem_map] at hx hy
    obtain ⟨q1, _, rfl⟩ := hx
    obtain ⟨q2, _, rfl⟩ := hy
    left
    have h1 := (dayCompare_le_iff d1 d2).mp hpair.1
    have hne : d1 ≠ d2 := hpair.2
    have hk1 := byDayOf_keys_known hdays d1 (hdk d1 hd1)
    have hk2 := byDayOf_keys_known hdays d2 (hdk d2 hd2)
    rcases Nat.lt_or_ge (dayOrderVal d1) (dayOrderVal d2) with h | h
    · exact h
    · exact absurd (dayOrderVal_inj d1 hk1 d2 hk2 (by omega)) hne

theorem normalize_eq_pairs_map (es : List RawStarsEntry) :
    normalizePeriodEntries es =
      (entryPairs (normalizePeriodEntries es)).map (fun pr => mkPeriodEntry pr.1 pr.2) := by
  unfold entryPairs
  rw [List.map_map]
  conv_lhs => rw [← List.map_id (normalizePeriodEntries es)]
  apply List.map_congr_left
  intro p hp
  exact (normalizePeriodEntries_shape es p hp).2.2

/-- Two raw entries with the unknown day codes X and Y. -/
def exEntryX : RawStarsEntry := ⟨"1", "X", "1"⟩

def exEntryY : RawStarsEntry := ⟨"1", "Y", "1"⟩

/-- C5 counterexample: the inputs `[X/1, Y/1]` and `[Y/1, X/1]` denote the
same finite set of (day, period) pairs, yet the normalizer returns two
different outputs (unknown day codes keep first-occurrence order), so the
output is not determined by the input set alone. -/
theorem C5_counterexample :
    (rawPairs [exEntryX, exEntryY]).Perm (rawPairs [exEntryY, exEntryX]) ∧
      normalizePeriodEntries [exEntryX, exEntryY] ≠
        normalizePeriodEntries [exEntryY, exEntryX] := by
  constructor
  · exact List.Perm.swap _ _ _
  · decide

/-- C5 (amended): restricted to inputs whose upper-cased day codes are among
the seven week-day codes, the entry normalizer produces exactly the distinct
(upper-cased day, upper-cased period) pairs of the input, ordered by the
fixed weekly day order M, T, W, TH, F, S, SU and, within a day, ascending by
the period table's clock start time with unknown period codes after known
ones (lexicographically among themselves); each output entry is determined
by its pair, and the output is deterministic: it depends only on the set of
pairs of the input.  (For inputs with unknown day codes, unknown days sort
after known ones in first-occurrence order, so the output is deterministic
only as a function of the input list.) -/
theorem C5_amended :
    ∀ es : List RawStarsEntry,
      (∀ e ∈ es, jsToUpperCase e.DAY ∈ DAY_SEQUENCE) →
      (entryPairs (normalizePeriodEntries es)).Nodup ∧
      (∀ pr, pr ∈ entryPairs (normalizePeriodEntries es) ↔ pr ∈ rawPairs es) ∧
      List.Pairwise pairOrderSpec (entryPairs (normalizePeriodEntries es)) ∧
      (∀ p ∈ normalizePeriodEntries es, p = mkPeriodEntry p.day p.period) ∧
      (∀ es' : List RawStarsEntry,
        (∀ e ∈ es', jsToUpperCase e.DAY ∈ DAY_SEQUENCE) →
        (∀ pr, pr ∈ rawPairs es ↔ pr ∈ rawPairs es') →
        normalizePeriodEntries es = normalizePeriodEntries es') := by
  intro es hdays
  refine ⟨entryPairs_nodup es, entryPairs_mem es, entryPairs_pairwise hdays,
    fun p hp => (normalizePeriodEntries_shape es p hp).2.2, ?_⟩
  intro es' hdays' hset
  have hperm : (entryPairs (normalizePeriodEntries es)).Perm
      (entryPairs (normalizePeriodEntries es')) := by
    refine (List.perm_ext_iff_of_nodup (entryPairs_nodup es) (entryPairs_nodup es')).mpr ?_
    intro pr
    rw [entryPairs_mem es pr, entryPairs_mem es' pr]
    exact hset pr
  have heq : entryPairs (normalizePeriodEntries es) =
      entryPairs (normalizePeriodEntries es') :=
    List.eq_of_perm_of_sorted hperm (entryPairs_pairwise hdays) (entryPairs_pairwise hdays')
  rw [normalize_eq_pairs_map es, normalize_eq_pairs_map es', heq]

/-- Witness for C5 (amended): the spec's period-ordering example (day M,
periods [9, 2] normalize to order [2, 9]) together with determinism on a
reordered, repadded variant of the same pair set. -/
theorem C5_witness :
    normalizePeriodEntries [⟨"13", "m", "9"⟩, ⟨"0013", "M", "2"⟩] =
      normalizePeriodEntries [⟨"1", "M", "2"⟩, ⟨"2", "m", "9"⟩] :=
  (C5_amended [⟨"13", "m", "9"⟩, ⟨"0013", "M", "2"⟩] (by decide)).2.2.2.2
    [⟨"1", "M", "2"⟩, ⟨"2", "m", "9"⟩] (by decide)
    (by intro pr; constructor <;> intro h <;> simp only [rawPairs, List.map_cons,
      List.map_nil, List.mem_cons, List.not_mem_nil, or_false] at h ⊢ <;> tauto)

/-! ## Claim C1 -/

theorem findSome?_range7 {α : Type} (f : Nat → Option α) :
    (List.range 7).findSome? f =
      (match f 0 with
       | some x => some x
       | none => match f 1 with
         | some x => some x
         | none => match f 2 with
           | some x => some x
           | none => match f 3 with
             | some x => some x
             | none => match f 4 with
               | some x => some x
               | none => match f 5 with
                 | some x => some x
                 | none => match f 6 with
                   | some x => some x
                   | none => none) := by
  rw [show List.range 7 = [0, 1, 2, 3, 4, 5, 6] from rfl]
  simp only [List.findSome?_cons, List.findSome?_nil]
  cases f 0 <;> rfl

theorem str_beq_decide (s t : String) : (s == t) = decide (s = t) := by
  by_cases h : s = t <;> simp [h]

/-- The six week-day codes after `d`, wrapping after the last day back to the
first (modelled from the amended claim wording). -/
def rotAfter (d : String) : List String :=
  (((DAY_SEQUENCE ++ DAY_SEQUENCE).dropWhile (fun x => x != d)).drop 1).take 6

/-- The `nextAvailable` search as worded by the (amended) claim: first
entry in list order on the current day starting strictly after the current
minute; otherwise the first entry in list order of the first day with any
entries among the six days after today in week order. -/
def nextAvailableSpec (periods : List PeriodEntry) (context : TimeContext) :
    Option PeriodEntry :=
  match periods.find? (fun p =>
      p.day == context.dayCode && decide (context.minutes < p.startMinutes)) with
  | some p => some p
  | none => (rotAfter context.dayCode).findSome? (fun d =>
      periods.find? (fun p => p.day == d))

theorem searchOffsets_spec_M (periods : List PeriodEntry) (m : Int) :
    searchOffsets periods ⟨"M", m⟩ (jsIndexOf DAY_SEQUENCE "M") =
      nextAvailableSpec periods ⟨"M", m⟩ := by
  unfold searchOffsets nextAvailableSpec
  rw [show jsIndexOf DAY_SEQUENCE "M" = 0 from rfl, findSome?_range7,
    show rotAfter "M" = ["T", "W", "TH", "F", "S", "SU"] from rfl]
  simp only [List.findSome?_cons, List.findSome?_nil]
  norm_num [find?_filter, head?_filter, DAY_SEQUENCE,
    show Int.tmod 0 7 = 0 from rfl,
    show Int.tmod 1 7 = 1 from rfl,
    show Int.tmod 2 7 = 2 from rfl,
    show Int.tmod 3 7 = 3 from rfl,
    show Int.tmod 4 7 = 4 from rfl,
    show Int.tmod 5 7 = 5 from rfl,
    show Int.tmod 6 7 = 6 from rfl,
    show Int.tmod 7 7 = 0 from rfl,
    show Int.tmod 8 7 = 1 from rfl,
    show Int.tmod 9 7 = 2 from rfl,
    show Int.tmod 10 7 = 3 from rfl,
    show Int.tmod 11 7 = 4 from rfl,
    show Int.tmod 12 7 = 5 from rfl,
    show (["M", "T", "W", "TH", "F", "S", "SU"] : List String)[(0:Int).toNat]? = some "M" from rfl,
    show (["M", "T", "W", "TH", "F", "S", "SU"] : List String)[(1:Int).toNat]? = some "T" from rfl,
    show (["M", "T", "W", "TH", "F", "S", "SU"] : List String)[(2:Int).toNat]? = some "W" from rfl,
    show (["M", "T", "W", "TH", "F", "S", "SU"] : List String)[(3:Int).toNat]? = some "TH" from rfl,
    show (["M", "T", "W", "TH", "F", "S", "SU"] : List String)[(4:Int).toNat]? = some "F" from rfl,
    show (["M", "T", "W", "TH", "F", "S", "SU"] : List String)[(5:Int).toNat]? = some "S" from rfl,
    show (["M", "T", "W", "TH", "F", "S", "SU"] : List String)[(6:Int).toNat]? = some "SU" from rfl]
  simp only [str_beq_decide]
  cases periods.find? (fun a => decide (a.day = "M") && decide (m < a.startMinutes)) <;> rfl

theorem searchOffsets_spec_T (periods : List PeriodEntry) (m : Int) :
    searchOffsets periods ⟨"T", m⟩ (jsIndexOf DAY_SEQUENCE "T") =
      nextAvailableSpec periods ⟨"T", m⟩ := by
  unfold searchOffsets nextAvailableSpec
  rw [show jsIndexOf DAY_SEQUENCE "T" = 1 from rfl, findSome?_range7,
    show rotAfter "T" = ["W", "TH", "F", "S", "SU", "M"] from rfl]
  simp only [List.findSome?_cons, List.findSome?_nil]
  norm_num [find?_filter, head?_filter, DAY_SEQUENCE,
    show Int.tmod 0 7 = 0 from rfl,
    show Int.tmod 1 7 = 1 from rfl,
    show Int.tmod 2 7 = 2 from rfl,
    show Int.tmod 3 7 = 3 from rfl,
    show Int.tmod 4 7 = 4 from rfl,
    show Int.tmod 5 7 = 5 from rfl,
    show Int.tmod 6 7 = 6 from rfl,
    show Int.tmod 7 7 = 0 from rfl,
    show Int.tmod 8 7 = 1 from rfl,
    show Int.tmod 9 7 = 2 from rfl,
    show Int.tmod 10 7 = 3 from rfl,
    show Int.tmod 11 7 = 4 from rfl,
    show Int.tmod 12 7 = 5 from rfl,
    show (["M", "T", "W", "TH", "F", "S", "SU"] : List String)[(0:Int).toNat]? = some "M" from rfl,
    show (["M", "T", "W", "TH", "F", "S", "SU"] : List String)[(1:Int).toNat]? = some "T" from rfl,
    show (["M", "T", "W", "TH", "F", "S", "SU"] : List String)[(2:Int).toNat]? = some "W" from rfl,
    show (["M", "T", "W", "TH", "F", "S", "SU"] : List String)[(3:Int).toNat]? = some "TH" from rfl,
    show (["M", "T", "W", "TH", "F", "S", "SU"] : List String)[(4:Int).toNat]? = some "F" from rfl,
    show (["M", "T", "W", "TH", "F", "S", "SU"] : List String)[(5:Int).toNat]? = some "S" from rfl,
    show (["M", "T", "W", "TH", "F", "S", "SU"] : List String)[(6:Int).toNat]? = some "SU" from rfl]
  simp only [str_beq_decide]
  cases periods.find? (fun a => decide (a.day = "T") && decide (m < a.startMinutes)) <;> rfl

theorem searchOffsets_spec_W (periods : List PeriodEntry) (m : Int) :
    searchOffsets periods ⟨"W", m⟩ (jsIndexOf DAY_SEQUENCE "W") =
      nextAvailableSpec periods ⟨"W", m⟩ := by
  unfold searchOffsets nextAvailableSpec
  rw [show jsIndexOf DAY_SEQUENCE "W" = 2 from rfl, findSome?_range7,
    show rotAfter "W" = ["TH", "F", "S", "SU", "M", "T"] from rfl]
  simp only [List.findSome?_cons, List.findSome?_nil]
  norm_num [find?_filter, head?_filter, DAY_SEQUENCE,
    show Int.tmod 0 7 = 0 from rfl,
    show Int.tmod 1 7 = 1 from rfl,
    show Int.tmod 2 7 = 2 from rfl,
    show Int.tmod 3 7 = 3 from rfl,
    show Int.tmod 4 7 = 4 from rfl,
    show Int.tmod 5 7 = 5 from rfl,
    show Int.tmod 6 7 = 6 from rfl,
    show Int.tmod 7 7 = 0 from rfl,
    show Int.tmod 8 7 = 1 from rfl,
    show Int.tmod 9 7 = 2 from rfl,
    show Int.tmod 10 7 = 3 from rfl,
    show Int.tmod 11 7 = 4 from rfl,
    show Int.tmod 12 7 = 5 from rfl,
    show (["M", "T", "W", "TH", "F", "S", "SU"] : List String)[(0:Int).toNat]? = some "M" from rfl,
    show (["M", "T", "W", "TH", "F", "S", "SU"] : List String)[(1:Int).toNat]? = some "T" from rfl,
    show (["M", "T", "W", "TH", "F", "S", "SU"] : List String)[(2:Int).toNat]? = some "W" from rfl,
    show (["M", "T", "W", "TH", "F", "S", "SU"] : List String)[(3:Int).toNat]? = some "TH" from rfl,
    show (["M", "T", "W", "TH", "F", "S", "SU"] : List String)[(4:Int).toNat]? = some "F" from rfl,
    show (["M", "T", "W", "TH", "F", "S", "SU"] : List String)[(5:Int).toNat]? = some "S" from rfl,
    show (["M", "T", "W", "TH", "F", "S", "SU"] : List String)[(6:Int).toNat]? = some "SU" from rfl]
  simp only [str_beq_decide]
  cases periods.find? (fun a => decide (a.day = "W") && decide (m < a.startMinutes)) <;> rfl

theorem searchOffsets_spec_TH (periods : List PeriodEntry) (m : Int) :
    searchOffsets periods ⟨"TH", m⟩ (jsIndexOf DAY_SEQUENCE "TH") =
      nextAvailableSpec periods ⟨"TH", m⟩ := by
  unfold searchOffsets nextAvailableSpec
  rw [show jsIndexOf DAY_SEQUENCE "TH" = 3 from rfl, findSome?_range7,
    show rotAfter "TH" = ["F", "S", "SU", "M", "T", "W"] from rfl]
  simp only [List.findSome?_cons, List.findSome?_nil]
  norm_num [find?_filter, head?_filter, DAY_SEQUENCE,
    show Int.tmod 0 7 = 0 from rfl,
    show Int.tmod 1 7 = 1 from rfl,
    show Int.tmod 2 7 = 2 from rfl,
    show Int.tmod 3 7 = 3 from rfl,
    show Int.tmod 4 7 = 4 from rfl,
    show Int.tmod 5 7 = 5 from rfl,
    show Int.tmod 6 7 = 6 from rfl,
    show Int.tmod 7 7 = 0 from rfl,
    show Int.tmod 8 7 = 1 from rfl,
    show Int.tmod 9 7 = 2 from rfl,
    show Int.tmod 10 7 = 3 from rfl,
    show Int.tmod 11 7 = 4 from rfl,
    show Int.tmod 12 7 = 5 from rfl,
    show (["M", "T", "W", "TH", "F", "S", "SU"] : List String)[(0:Int).toNat]? = some "M" from rfl,
    show (["M", "T", "W", "TH", "F", "S", "SU"] : List String)[(1:Int).toNat]? = some "T" from rfl,
    show (["M", "T", "W", "TH", "F", "S", "SU"] : List String)[(2:Int).toNat]? = some "W" from rfl,
    show (["M", "T", "W", "TH", "F", "S", "SU"] : List String)[(3:Int).toNat]? = some "TH" from rfl,
    show (["M", "T", "W", "TH", "F", "S", "SU"] : List String)[(4:Int).toNat]? = some "F" from rfl,
    show (["M", "T", "W", "TH", "F", "S", "SU"] : List String)[(5:Int).toNat]? = some "S" from rfl,
    show (["M", "T", "W", "TH", "F", "S", "SU"] : List String)[(6:Int).toNat]? = some "SU" from rfl]
  simp only [str_beq_decide]
  cases periods.find? (fun a => decide (a.day = "TH") && decide (m < a.startMinutes)) <;> rfl

theorem searchOffsets_spec_F (periods : List PeriodEntry) (m : Int) :
    searchOffsets periods ⟨"F", m⟩ (jsIndexOf DAY_SEQUENCE "F") =
      nextAvailableSpec periods ⟨"F", m⟩ := by
  unfold searchOffsets nextAvailableSpec
  rw [show jsIndexOf DAY_SEQUENCE "F" = 4 from rfl, findSome?_range7,
    show rotAfter "F" = ["S", "SU", "M", "T", "W", "TH"] from rfl]
  simp only [List.findSome?_cons, List.findSome?_nil]
  norm_num [find?_filter, head?_filter, DAY_SEQUENCE,
    show Int.tmod 0 7 = 0 from rfl,
    show Int.tmod 1 7 = 1 from rfl,
    show Int.tmod 2 7 = 2 from rfl,
    show Int.tmod 3 7 = 3 from rfl,
    show Int.tmod 4 7 = 4 from rfl,
    show Int.tmod 5 7 = 5 from rfl,
    show Int.tmod 6 7 = 6 from rfl,
    show Int.tmod 7 7 = 0 from rfl,
    show Int.tmod 8 7 = 1 from rfl,
    show Int.tmod 9 7 = 2 from rfl,
    show Int.tmod 10 7 = 3 from rfl,
    show Int.tmod 11 7 = 4 from rfl,
    show Int.tmod 12 7 = 5 from rfl,
    show (["M", "T", "W", "TH", "F", "S", "SU"] : List String)[(0:Int).toNat]? = some "M" from rfl,
    show (["M", "T", "W", "TH", "F", "S", "SU"] : List String)[(1:Int).toNat]? = some "T" from rfl,
    show (["M", "T", "W", "TH", "F", "S", "SU"] : List String)[(2:Int).toNat]? = some "W" from rfl,
    show (["M", "T", "W", "TH", "F", "S", "SU"] : List String)[(3:Int).toNat]? = some "TH" from rfl,
    show (["M", "T", "W", "TH", "F", "S", "SU"] : List String)[(4:Int).toNat]? = some "F" from rfl,
    show (["M", "T", "W", "TH", "F", "S", "SU"] : List String)[(5:Int).toNat]? = some "S" from rfl,
    show (["M", "T", "W", "TH", "F", "S", "SU"] : List String)[(6:Int).toNat]? = some "SU" from rfl]
  simp only [str_beq_decide]
  cases periods.find? (fun a => decide (a.day = "F") && decide (m < a.startMinutes)) <;> rfl

theorem searchOffsets_spec_S (periods : List PeriodEntry) (m : Int) :
    searchOffsets periods ⟨"S", m⟩ (jsIndexOf DAY_SEQUENCE "S") =
      nextAvailableSpec periods ⟨"S", m⟩ := by
  unfold searchOffsets nextAvailableSpec
  rw [show jsIndexOf DAY_SEQUENCE "S" = 5 from rfl, findSome?_range7,
    show rotAfter "S" = ["SU", "M", "T", "W", "TH", "F"] from rfl]
  simp only [List.findSome?_cons, List.findSome?_nil]
  norm_num [find?_filter, head?_filter, DAY_SEQUENCE,
    show Int.tmod 0 7 = 0 from rfl,
    show Int.tmod 1 7 = 1 from rfl,
    show Int.tmod 2 7 = 2 from rfl,
    show Int.tmod 3 7 = 3 from rfl,
    show Int.tmod 4 7 = 4 from rfl,
    show Int.tmod 5 7 = 5 from rfl,
    show Int.tmod 6 7 = 6 from rfl,
    show Int.tmod 7 7 = 0 from rfl,
    show Int.tmod 8 7 = 1 from rfl,
    show Int.tmod 9 7 = 2 from rfl,
    show Int.tmod 10 7 = 3 from rfl,
    show Int.tmod 11 7 = 4 from rfl,
    show Int.tmod 12 7 = 5 from rfl,
    show (["M", "T", "W", "TH", "F", "S", "SU"] : List String)[(0:Int).toNat]? = some "M" from rfl,
    show (["M", "T", "W", "TH", "F", "S", "SU"] : List String)[(1:Int).toNat]? = some "T" from rfl,
    show (["M", "T", "W", "TH", "F", "S", "SU"] : List String)[(2:Int).toNat]? = some "W" from rfl,
    show (["M", "T", "W", "TH", "F", "S", "SU"] : List String)[(3:Int).toNat]? = some "TH" from rfl,
    show (["M", "T", "W", "TH", "F", "S", "SU"] : List String)[(4:Int).toNat]? = some "F" from rfl,
    show (["M", "T", "W", "TH", "F", "S", "SU"] : List String)[(5:Int).toNat]? = some "S" from rfl,
    show (["M", "T", "W", "TH", "F", "S", "SU"] : List String)[(6:Int).toNat]? = some "SU" from rfl]
  simp only [str_beq_decide]
  cases periods.find? (fun a => decide (a.day = "S") && decide (m < a.startMinutes)) <;> rfl

theorem searchOffsets_spec_SU (periods : List PeriodEntry) (m : Int) :
    searchOffsets periods ⟨"SU", m⟩ (jsIndexOf DAY_SEQUENCE "SU") =
      nextAvailableSpec periods ⟨"SU", m⟩ := by
  unfold searchOffsets nextAvailableSpec
  rw [show jsIndexOf DAY_SEQUENCE "SU" = 6 from rfl, findSome?_range7,
    show rotAfter "SU" = ["M", "T", "W", "TH", "F", "S"] from rfl]
  simp only [List.findSome?_cons, List.findSome?_nil]
  norm_num [find?_filter, head?_filter, DAY_SEQUENCE,
    show Int.tmod 0 7 = 0 from rfl,
    show Int.tmod 1 7 = 1 from rfl,
    show Int.tmod 2 7 = 2 from rfl,
    show Int.tmod 3 7 = 3 from rfl,
    show Int.tmod 4 7 = 4 from rfl,
    show Int.tmod 5 7 = 5 from rfl,
    show Int.tmod 6 7 = 6 from rfl,
    show Int.tmod 7 7 = 0 from rfl,
    show Int.tmod 8 7 = 1 from rfl,
    show Int.tmod 9 7 = 2 from rfl,
    show Int.tmod 10 7 = 3 from rfl,
    show Int.tmod 11 7 = 4 from rfl,
    show Int.tmod 12 7 = 5 from rfl,
    show (["M", "T", "W", "TH", "F", "S", "SU"] : List String)[(0:Int).toNat]? = some "M" from rfl,
    show (["M", "T", "W", "TH", "F", "S", "SU"] : List String)[(1:Int).toNat]? = some "T" from rfl,
    show (["M", "T", "W", "TH", "F", "S", "SU"] : List String)[(2:Int).toNat]? = some "W" from rfl,
    show (["M", "T", "W", "TH", "F", "S", "SU"] : List String)[(3:Int).toNat]? = some "TH" from rfl,
    show (["M", "T", "W", "TH", "F", "S", "SU"] : List String)[(4:Int).toNat]? = some "F" from rfl,
    show (["M", "T", "W", "TH", "F", "S", "SU"] : List String)[(5:Int).toNat]? = some "S" from rfl,
    show (["M", "T", "W", "TH", "F", "S", "SU"] : List String)[(6:Int).toNat]? = some "SU" from rfl]
  simp only [str_beq_decide]
  cases periods.find? (fun a => decide (a.day = "SU") && decide (m < a.startMinutes)) <;> rfl

theorem mem_rotAfter {d : String} (hd : d ∈ DAY_SEQUENCE) (x : String) :
    x ∈ rotAfter d ↔ x ∈ DAY_SEQUENCE ∧ x ≠ d := by
  fin_cases hd
  · rw [show rotAfter "M" = ["T", "W", "TH", "F", "S", "SU"] from rfl]
    constructor
    · intro h
      simp only [List.mem_cons, List.not_mem_nil, or_false] at h
      rcases h with rfl | rfl | rfl | rfl | rfl | rfl <;> exact ⟨by decide, by decide⟩
    · rintro ⟨hx, hne⟩
      simp only [DAY_SEQUENCE, List.mem_cons, List.not_mem_nil, or_false] at hx
      rcases hx with rfl | rfl | rfl | rfl | rfl | rfl | rfl <;>
        first
          | exact absurd rfl hne
          | decide
  · rw [show rotAfter "T" = ["W", "TH", "F", "S", "SU", "M"] from rfl]
    constructor
    · intro h
      simp only [List.mem_cons, List.not_mem_nil, or_false] at h
      rcases h with rfl | rfl | rfl | rfl | rfl | rfl <;> exact ⟨by decide, by decide⟩
    · rintro ⟨hx, hne⟩
      simp only [DAY_SEQUENCE, List.mem_cons, List.not_mem_nil, or_false] at hx
      rcases hx with rfl | rfl | rfl | rfl | rfl | rfl | rfl <;>
        first
          | exact absurd rfl hne
          | decide
  · rw [show rotAfter "W" = ["TH", "F", "S", "SU", "M", "T"] from rfl]
    constructor
    · intro h
      simp only [List.mem_cons, List.not_mem_nil, or_false] at h
      rcases h with rfl | rfl | rfl | rfl | rfl | rfl <;> exact ⟨by decide, by decide⟩
    · rintro ⟨hx, hne⟩
      simp only [DAY_SEQUENCE, List.mem_cons, List.not_mem_nil, or_false] at hx
      rcases hx with rfl | rfl | rfl | rfl | rfl | rfl | rfl <;>
        first
          | exact absurd rfl hne
          | decide
  · rw [show rotAfter "TH" = ["F", "S", "SU", "M", "T", "W"] from rfl]
    constructor
    · intro h
      simp only [List.mem_cons, List.not_mem_nil, or_false] at h
      rcases h with rfl | rfl | rfl | rfl | rfl | rfl <;> exact ⟨by decide, by decide⟩
    · rintro ⟨hx, hne⟩
      simp only [DAY_SEQUENCE, List.mem_cons, List.not_mem_nil, or_false] at hx
      rcases hx with rfl | rfl | rfl | rfl | rfl | rfl | rfl <;>
        first
          | exact absurd rfl hne
          | decide
  · rw [show rotAfter "F" = ["S", "SU", "M", "T", "W", "TH"] from rfl]
    constructor
    · intro h
      simp only [List.mem_cons, List.not_mem_nil, or_false] at h
      rcases h with rfl | rfl | rfl | rfl | rfl | rfl <;> exact ⟨by decide, by decide⟩
    · rintro ⟨hx, hne⟩
      simp only [DAY_SEQUENCE, List.mem_cons, List.not_mem_nil, or_false] at hx
      rcases hx with rfl | rfl | rfl | rfl | rfl | rfl | rfl <;>
        first
          | exact absurd rfl hne
          | decide
  · rw [show rotAfter "S" = ["SU", "M", "T", "W", "TH", "F"] from rfl]
    constructor
    · intro h
      simp only [List.mem_cons, List.not_mem_nil, or_false] at h
      rcases h with rfl | rfl | rfl | rfl | rfl | rfl <;> exact ⟨by decide, by decide⟩
    · rintro ⟨hx, hne⟩
      simp only [DAY_SEQUENCE, List.mem_cons, List.not_mem_nil, or_false] at hx
      rcases hx with rfl | rfl | rfl | rfl | rfl | rfl | rfl <;>
        first
          | exact absurd rfl hne
          | decide
  · rw [show rotAfter "SU" = ["M", "T", "W", "TH", "F", "S"] from rfl]
    constructor
    · intro h
      simp only [List.mem_cons, List.not_mem_nil, or_false] at h
      rcases h with rfl | rfl | rfl | rfl | rfl | rfl <;> exact ⟨by decide, by decide⟩
    · rintro ⟨hx, hne⟩
      simp only [DAY_SEQUENCE, List.mem_cons, List.not_mem_nil, or_false] at hx
      rcases hx with rfl | rfl | rfl | rfl | rfl | rfl | rfl <;>
        first
          | exact absurd rfl hne
          | decide

theorem computeStatus_next_eq (periods : List PeriodEntry) (dc : String) (m : Int)
    (hdc : dc ∈ DAY_SEQUENCE) :
    (computeStatus periods ⟨dc, m⟩).nextAvailable =
      (nextAvailableSpec periods ⟨dc, m⟩).map toNextAvailability := by
  cases hE : periods.isEmpty with
  | true =>
    have hnil : periods = [] := List.isEmpty_iff.mp hE
    subst hnil
    fin_cases hdc <;> rfl
  | false =>
    unfold computeStatus
    rw [hE]
    simp only [Bool.false_eq_true, if_false]
    fin_cases hdc <;>
      simp only [searchOffsets_spec_M, searchOffsets_spec_T, searchOffsets_spec_W,
        searchOffsets_spec_TH, searchOffsets_spec_F, searchOffsets_spec_S,
        searchOffsets_spec_SU]

theorem nextAvailableSpec_none_iff (periods : List PeriodEntry) (dc : String) (m : Int)
    (hdc : dc ∈ DAY_SEQUENCE) :
    nextAvailableSpec periods ⟨dc, m⟩ = none ↔
      (¬∃ p ∈ periods, p.day = dc ∧ m < p.startMinutes) ∧
      ¬∃ p ∈ periods, p.day ∈ DAY_SEQUENCE ∧ p.day ≠ dc := by
  unfold nextAvailableSpec
  cases hfind : periods.find? (fun p => p.day == dc && decide (m < p.startMinutes)) with
  | some p =>
    have hp := List.find?_some hfind
    have hmem := List.mem_of_find?_eq_some hfind
    simp only [Bool.and_eq_true, beq_iff_eq, decide_eq_true_eq] at hp
    simp only
    constructor
    · intro h
      exact absurd h (by simp)
    · rintro ⟨h1, _⟩
      exact absurd ⟨p, hmem, hp.1, hp.2⟩ h1
  | none =>
    have hnone := List.find?_eq_none.mp hfind
    simp only
    rw [List.findSome?_eq_none_iff]
    constructor
    · intro hall
      refine ⟨?_, ?_⟩
      · rintro ⟨p, hp, h1, h2⟩
        have := hnone p hp
        simp only [Bool.and_eq_true, beq_iff_eq, decide_eq_true_eq, not_and] at this
        exact this h1 h2
      · rintro ⟨p, hp, hseq, hne⟩
        have hd : p.day ∈ rotAfter dc := (mem_rotAfter hdc p.day).mpr ⟨hseq, hne⟩
        have hthis := hall p.day hd
        rw [List.find?_eq_none] at hthis
        exact hthis p hp (by simp)
    · rintro ⟨h1, h2⟩ d hd
      rw [List.find?_eq_none]
      intro p hp hpd
      simp only [beq_iff_eq] at hpd
      obtain ⟨hseq, hne⟩ := (mem_rotAfter hdc d).mp hd
      exact h2 ⟨p, hp, by rw [hpd]; exact hseq, by rw [hpd]; exact hne⟩

/-- An unsorted periods list: period 9 before period 2, both on Monday. -/
def pM9 : PeriodEntry := ⟨"M", "9", "4:05 PM", "4:55 PM", 965, 1015⟩

def pM2 : PeriodEntry := ⟨"M", "2", "8:30 AM", "9:20 AM", 510, 560⟩

/-- A period entry on the unknown day code X. -/
def pX1 : PeriodEntry := ⟨"X", "1", "12:00 AM", "1:00 AM", 0, 60⟩

/-- C1 counterexample: (i) on the list [M/9, M/2] at Monday minute 0 the
code returns period 9 — the first entry in list order with a future start —
although M/2 also starts strictly later than the current minute and earlier
than M/9, so the result is not the earliest such entry; (ii) on the
non-empty list [X/1] (an unknown day code) `nextAvailable` is null, so
null does not hold exactly when the room/size has no periods at all. -/
theorem C1_counterexample :
    ((computeStatus [pM9, pM2] ⟨"M", 0⟩).nextAvailable.map
        (fun n => n.period) = some "9" ∧
      pM2 ∈ [pM9, pM2] ∧ pM2.day = "M" ∧ (0 : Int) < pM2.startMinutes ∧
      pM2.startMinutes < pM9.startMinutes) ∧
    ((computeStatus [pX1] ⟨"M", 0⟩).nextAvailable = none ∧
      [pX1] ≠ ([] : List PeriodEntry)) := by
  constructor
  · exact ⟨by decide, by decide, by decide, by decide, by decide⟩
  · exact ⟨by decide, by decide⟩

/-- C1 (amended): for a current context whose weekday code is one of the
seven week-day codes, `nextAvailable` is (a) the first `PeriodEntry` in list
order on the current day whose `startMinutes` is strictly greater than the
current minute; if none exists, (b) the first `PeriodEntry` in list order of
the first day, walking through the six week days after today (wrapping after
the last day back to the first), that has any entries; and `nextAvailable`
is null exactly when the list has neither an entry on the current day
starting strictly after the current minute nor any entry on another day of
the week sequence.  (For period lists produced by `normalizePeriodEntries`,
first in list order on the current day coincides with earliest by start
time.) -/
theorem C1_amended :
    ∀ (periods : List PeriodEntry) (context : TimeContext),
      context.dayCode ∈ DAY_SEQUENCE →
      (computeStatus periods context).nextAvailable =
          (nextAvailableSpec periods context).map toNextAvailability ∧
      ((computeStatus periods context).nextAvailable = none ↔
        (¬∃ p ∈ periods, p.day = context.dayCode ∧
          context.minutes < p.startMinutes) ∧
        ¬∃ p ∈ periods, p.day ∈ DAY_SEQUENCE ∧ p.day ≠ context.dayCode) := by
  intro periods context hdc
  obtain ⟨dc, m⟩ := context
  simp only at hdc ⊢
  have hmain := computeStatus_next_eq periods dc m hdc
  refine ⟨hmain, ?_⟩
  rw [hmain, Option.map_eq_none']
  exact nextAvailableSpec_none_iff periods dc m hdc

/-- Witness for C1 (amended): the spec's example — context Monday, minute
500 (8:20am), one open period M/2 (8:30–9:20) — where `nextAvailable` is
that same period. -/
theorem C1_witness :
    ("M" ∈ DAY_SEQUENCE) ∧
    (computeStatus [pM2] ⟨"M", 500⟩).nextAvailable =
      (nextAvailableSpec [pM2] ⟨"M", 500⟩).map toNextAvailability ∧
    (nextAvailableSpec [pM2] ⟨"M", 500⟩).map toNextAvailability =
      some ⟨"M", "Monday", "2", "8:30 AM", "9:20 AM"⟩ :=
  ⟨by decide, (C1_amended [pM2] ⟨"M", 500⟩ (by decide)).1, by decide⟩

/-! ## Claim C10 -/

/-- Invariant of the building map relative to the processed prefix of raw
buildings: distinct keys that are exactly the processed ids, and each record
carries the scalar fields of the first processed occurrence of its id. -/
def BMapInv (processed : List RawStarsBuilding)
    (bm : List (String × BuildingAcc)) : Prop :=
  (bm.map Prod.fst).Nodup ∧
  (∀ i, i ∈ bm.map Prod.fst ↔ i ∈ processed.map (fun b => b.id)) ∧
  (∀ ib ∈ bm, ∃ pre raw suf, processed = pre ++ raw :: suf ∧ raw.id = ib.1 ∧
    ib.1 ∉ pre.map (fun b => b.id) ∧ ib.2.id = ib.1 ∧
    ib.2.code = normalizeBuildingCode raw.code ∧ ib.2.name = raw.name ∧
    ib.2.campusId = raw.campusId ∧ ib.2.lat = raw.lat ∧ ib.2.lng = raw.lng)

theorem processBuilding_bMapInv {cm : List (String × RawClassroomRecord)}
    {processed : List RawStarsBuilding} {bm : List (String × BuildingAcc)}
    {building : RawStarsBuilding} (hinv : BMapInv processed bm) :
    BMapInv (processed ++ [building]) (processBuilding cm bm building) := by
  obtain ⟨hnd, hiff, hrec⟩ := hinv
  unfold processBuilding currentBuildingAcc
  cases hfind : alookup bm building.id with
  | some r =>
    have hmemkeys : building.id ∈ bm.map Prod.fst :=
      List.mem_map.mpr ⟨(building.id, r), alookup_mem hfind, rfl⟩
    refine ⟨?_, ?_, ?_⟩
    · rw [setKey_keys]
      simp only [hmemkeys, if_true]
      exact hnd
    · intro i
      rw [setKey_keys]
      simp only [hmemkeys, if_true, List.map_append, List.mem_append]
      rw [hiff i]
      constructor
      · exact fun h => Or.inl h
      · rintro (h | h)
        · exact h
        · simp only [List.map_cons, List.map_nil, List.mem_singleton] at h
          subst h
          exact (hiff building.id).mp hmemkeys
    · intro ib hib
      rcases mem_setKey hib with h | h
      · obtain ⟨pre, raw, suf, hdec, hrid, hpre, hid, hcode, hname, hcamp, hlat, hlng⟩ :=
          hrec (building.id, r) (alookup_mem hfind)
        subst h
        exact ⟨pre, raw, suf ++ [building], by rw [hdec]; simp, hrid, hpre, hid,
          hcode, hname, hcamp, hlat, hlng⟩
      · obtain ⟨pre, raw, suf, hdec, hrid, hpre, hid, hcode, hname, hcamp, hlat, hlng⟩ :=
          hrec ib h
        exact ⟨pre, raw, suf ++ [building], by rw [hdec]; simp, hrid, hpre, hid,
          hcode, hname, hcamp, hlat, hlng⟩
  | none =>
    have hnotmem : building.id ∉ bm.map Prod.fst := alookup_eq_none.mp hfind
    refine ⟨?_, ?_, ?_⟩
    · rw [setKey_keys]
      simp only [hnotmem, if_false]
      refine List.Nodup.append hnd (by simp) ?_
      intro a ha hb
      simp only [List.mem_singleton] at hb
      subst hb
      exact hnotmem ha
    · intro i
      rw [setKey_keys]
      simp [hnotmem, hiff i]
    · intro ib hib
      rcases mem_setKey hib with h | h
      · subst h
        refine ⟨processed, building, [], by simp, rfl, ?_, rfl, rfl, rfl, rfl, rfl, rfl⟩
        intro hmem
        exact hnotmem ((hiff building.id).mpr hmem)
      · obtain ⟨pre, raw, suf, hdec, hrid, hpre, hid, hcode, hname, hcamp, hlat, hlng⟩ :=
          hrec ib h
        exact ⟨pre, raw, suf ++ [building], by rw [hdec]; simp, hrid, hpre, hid,
          hcode, hname, hcamp, hlat, hlng⟩

theorem bmap_inv (cm : List (String × RawClassroomRecord)) :
    ∀ (bs processed : List RawStarsBuilding) (bm : List (String × BuildingAcc)),
      BMapInv processed bm →
      BMapInv (processed ++ bs) (bs.foldl (processBuilding cm) bm) := by
  intro bs
  induction bs with
  | nil => intro processed bm h; simpa using h
  | cons b rest ih =>
    intro processed bm h
    have hres := ih (processed ++ [b]) (processBuilding cm bm b)
      (processBuilding_bMapInv h)
    simpa using hres

/-- A snapshot in which the same building id occurs twice, with the same
room and size bucket but different schedule entries. -/
def exDupStars : RawStarsData :=
  ⟨"t", "F", [],
    [⟨"b1", "First", some "AAA", none, none, none, [("10", [⟨"1", "M", "2"⟩])]⟩,
     ⟨"b1", "Second", some "BBB", none, none, none, [("10", [⟨"1", "T", "3"⟩])]⟩]⟩

/-- C10 counterexample: with two occurrences of building id b1 both listing
room 0001 under size bucket 10, the merged record holds only the second
occurrence's normalized periods [(T, 3)]; the first occurrence's entry
(M, 2), although listed in the raw snapshot, is absent from the merged
bucket — the size buckets of all occurrences are not merged, the last
occurrence overwrites. -/
theorem C10_counterexample :
    (buildAvailabilityDataset (some exDupStars) none "n").buildings.map
        (fun b => (b.name, b.code, b.rooms.map (fun r => (r.number,
          r.availability.map (fun sr => (sr.1, sr.2.periods.map
            (fun p => (p.day, p.period)))))))) =
      [("First", some "AAA", [("0001", [("10", [("T", "3")])])])] ∧
    exDupStars.buildings.map (fun rb => rb.sizes.map (fun se =>
        (se.1, se.2.map (fun e => (e.DAY, e.PERIOD))))) =
      [[("10", [("M", "2")])], [("10", [("T", "3")])]] := by
  constructor
  · rfl
  · rfl

/-- C10 (amended): `buildAvailabilityDataset` produces exactly one building
record per distinct raw building id, taking code, name, campusId, lat and
lng from the first occurrence of that id; the occurrences' size buckets are
processed in sequence into that single record, so rooms accumulate across
occurrences but, for a room+size listed by several occurrences, later
occurrences overwrite the bucket rather than merging entries: building a
snapshot with two same-id occurrences equals building one with a single
occurrence carrying the first occurrence's scalar fields and the
concatenation of both occurrences' size-bucket lists. -/
theorem C10_amended :
    (∀ (s : RawStarsData) (classrooms : Option RawClassroomDataset) (nowIso : String),
      (∀ i, ((buildAvailabilityDataset (some s) classrooms nowIso).buildings.map
          (fun b => b.id)).count i =
        if i ∈ s.buildings.map (fun b => b.id) then 1 else 0) ∧
      (∀ b ∈ (buildAvailabilityDataset (some s) classrooms nowIso).buildings,
        ∃ pre raw suf, s.buildings = pre ++ raw :: suf ∧ raw.id = b.id ∧
          b.id ∉ pre.map (fun rb => rb.id) ∧
          b.code = normalizeBuildingCode raw.code ∧ b.name = raw.name ∧
          b.campusId = raw.campusId ∧ b.lat = raw.lat ∧ b.lng = raw.lng)) ∧
    (∀ (fetchedAt term : String) (classSizes : List String)
        (b1 b2 : RawStarsBuilding) (classrooms : Option RawClassroomDataset)
        (nowIso : String), b2.id = b1.id →
      buildAvailabilityDataset (some ⟨fetchedAt, term, classSizes, [b1, b2]⟩)
          classrooms nowIso =
        buildAvailabilityDataset (some ⟨fetchedAt, term, classSizes,
          [{ b1 with sizes := b1.sizes ++ b2.sizes }]⟩) classrooms nowIso) := by
  constructor
  · intro s classrooms nowIso
    obtain ⟨hnd, hiff, hrec⟩ :=
      bmap_inv (classroomMapOf classrooms) s.buildings [] []
        ⟨by simp, by simp, by simp⟩
    constructor
    · intro i
      have hperm : ((buildAvailabilityDataset (some s) classrooms nowIso).buildings.map
          (fun b => b.id)).Perm
            ((((s.buildings.foldl (processBuilding (classroomMapOf classrooms)) []).map
              Prod.snd).map finalizeBuilding).map (fun b => b.id)) := by
        unfold buildAvailabilityDataset
        simp only
        exact (List.perm_insertionSort _ _).map _
      have hids : ((((s.buildings.foldl (processBuilding (classroomMapOf classrooms))
          []).map Prod.snd).map finalizeBuilding).map (fun b => b.id)) =
          (s.buildings.foldl (processBuilding (classroomMapOf classrooms)) []).map
            Prod.fst := by
        simp only [List.map_map]
        apply List.map_congr_left
        intro ib hib
        obtain ⟨_, _, _, _, _, _, hid, _⟩ := hrec ib (by simpa using hib)
        simpa [finalizeBuilding, Function.comp_def] using hid
      rw [hperm.count_eq, hids]
      by_cases hmem : i ∈ s.buildings.map (fun b => b.id)
      · simp only [hmem, if_true]
        exact List.count_eq_one_of_mem (by simpa using hnd) (by simpa using (hiff i).mpr (by simpa using hmem))
      · simp only [hmem, if_false]
        refine List.count_eq_zero.mpr ?_
        intro h
        exact hmem (by simpa using (hiff i).mp (by simpa using h))
    · intro b hb
      unfold buildAvailabilityDataset at hb
      simp only at hb
      rw [mem_insertionSort_iff] at hb
      simp only [List.mem_map] at hb
      obtain ⟨acc, ⟨ib, hib, rfl⟩, rfl⟩ := hb
      obtain ⟨pre, raw, suf, hdec, hrid, hpre, hid, hcode, hname, hcamp, hlat, hlng⟩ :=
        hrec ib (by simpa using hib)
      refine ⟨pre, raw, suf, by simpa using hdec, ?_, ?_, hcode, hname, hcamp, hlat,
        hlng⟩
      · rw [show (finalizeBuilding ib.2).id = ib.2.id from rfl, hid]
        exact hrid
      · rw [show (finalizeBuilding ib.2).id = ib.2.id from rfl, hid]
        exact hpre
  · intro ft tm cs b1 b2 classrooms nowIso h
    unfold buildAvailabilityDataset
    simp only [List.foldl_cons, List.foldl_nil]
    unfold processBuilding currentBuildingAcc
    simp [alookup, setKey, h, List.foldl_append]

/-- Witness for C10 (amended) at the concrete duplicate-id snapshot. -/
theorem C10_witness :
    buildAvailabilityDataset
        (some ⟨"t", "F", [],
          [⟨"b1", "First", some "AAA", none, none, none, [("10", [⟨"1", "M", "2"⟩])]⟩,
           ⟨"b1", "Second", some "BBB", none, none, none,
             [("10", [⟨"1", "T", "3"⟩])]⟩]⟩) none "n" =
      buildAvailabilityDataset
        (some ⟨"t", "F", [],
          [⟨"b1", "First", some "AAA", none, none, none,
            [("10", [⟨"1", "M", "2"⟩]), ("10", [⟨"1", "T", "3"⟩])]⟩]⟩) none "n" :=
  C10_amended.2 "t" "F" []
    ⟨"b1", "First", some "AAA", none, none, none, [("10", [⟨"1", "M", "2"⟩])]⟩
    ⟨"b1", "Second", some "BBB", none, none, none, [("10", [⟨"1", "T", "3"⟩])]⟩
    none "n" (by decide)
